import Mathlib

/-!
# Campux persistence layer: `backend/database/mongo.go`

A shallow embedding of `MongoDBManager` and of the part of the MongoDB driver it
calls, followed by the properties of post-id allocation, creation logging,
metadata bootstrap and post listing.

* Go's `int` / `int64` are integers wrapped to 64 bits (`wrapInt`).
* The database is a record of collections (`Store`); every driver call consumes
  one entry of a fault schedule carried by the store, so that a call either
  performs its effect or fails, with the scheduled error or with the server's
  rejection of the request, and no effect.
* `sync.Mutex` is a held/free flag together with the history of operations
  performed on it; goroutines that run `AddPost` concurrently are interleaved at
  the granularity of the mutex operations and driver calls (`Goroutine.step`).
-/

namespace Campux

/-! ## Go integers -/

/-- Two's-complement wrap-around of Go's 64-bit signed integer arithmetic. -/
def wrapInt (x : Int) : Int := (x + 2 ^ 63) % 2 ^ 64 - 2 ^ 63

/-- Largest value of Go's `int` on a 64-bit platform. -/
def MAX_INT : Int := 2 ^ 63 - 1

/-- Smallest value of Go's `int` on a 64-bit platform. -/
def MIN_INT : Int := -(2 ^ 63)

/-! ## Data model -/

/-- Constant `ACCOUNT_COLLECTION`. -/
def ACCOUNT_COLLECTION : String := "account"

/-- Constant `POST_COLLECTION`. -/
def POST_COLLECTION : String := "post"

/-- Constant `POST_LOG_COLLECTION`. -/
def POST_LOG_COLLECTION : String := "post_log"

/-- Constant `METADATA_COLLECTION`. -/
def METADATA_COLLECTION : String := "metadata"

/-- Modelled from the spec: `PostStatus` and its constants are declared outside
`mongo.go`. The spec describes an opaque comparable set containing the query wildcard
`ANY`, the state `PENDING_APPROVAL`, and further moderation states that the
persistence layer only stores and compares for equality. -/
inductive PostStatus where
  | ANY
  | PENDING_APPROVAL
  | other (code : Nat)
  deriving DecidableEq, Repr

/-- Constant `POST_STATUS_ANY`. -/
def POST_STATUS_ANY : PostStatus := PostStatus.ANY

/-- Constant `POST_STATUS_PENDING_APPROVAL`. -/
def POST_STATUS_PENDING_APPROVAL : PostStatus := PostStatus.PENDING_APPROVAL

/-- Modelled from the spec: the struct `PostPO` is declared outside `mongo.go`. The
fields are those of the spec's `Post` (`id`, `uin`, `status`, `created_at`); content
fields are out of scope. `CreatedAt` is an instant on an integer time line. -/
structure PostPO where
  ID : Int
  Uin : Int
  Status : PostStatus
  CreatedAt : Int
  deriving DecidableEq, Repr

/-- Modelled from the spec: the struct `PostLogPO` is declared outside `mongo.go`. The
fields are the ones `AddPost` fills in. -/
structure PostLogPO where
  PostID : Int
  Op : Int
  OldStat : PostStatus
  NewStat : PostStatus
  Comment : String
  CreatedAt : Int
  deriving DecidableEq, Repr

/-- Struct `Metadata`. -/
structure Metadata where
  Key : String
  Value : String
  deriving DecidableEq, Repr

/-- Variable `PresetMetadata`: the catalog of default settings. -/
def PresetMetadata : List Metadata :=
  [ { Key := "banner", Value := "投稿前请阅读投稿规则！" },
    { Key := "popup_announcement", Value := "欢迎使用 Campux！" },
    { Key := "post_rules",
      Value := "[\n\t\t\t\"投稿规则是数组\",\n\t\t\t\"每个元素是一个字符串\"\n\t\t]" },
    { Key := "services",
      Value := "[\n\t\t\t\x7b\n\t\t\t\t\"name\": \"服务名称\",\n\t\t\t\t\"description\": \"服务也是数组形式，会显示在服务tab\",\n\t\t\t\t\"link\": \"https://url.to.service\",\n\t\t\t\t\"toast\": \"点击时的提示\",\n\t\t\t\t\"emoji\": \"🗺️\"\n\t\t\t\x7d\n\t\t]" },
    { Key := "brand", Value := "Campux 这个是你的墙的名称" },
    { Key := "beianhao", Value := "桂ICP备1145141919号-1" } ]

/-! ## The document store (model of the MongoDB driver calls used by `mongo.go`) -/

/-- Values that occur in the filters, sort documents and stored fields used here. -/
inductive Bson where
  | int (v : Int)
  | str (s : String)
  | status (s : PostStatus)
  deriving DecidableEq, Repr

/-- Go's `bson.M`: a document given by its fields. A field name occurs at most once. -/
abbrev M := List (String × Bson)

/-- Assignment `m[k] = v` on a `bson.M`. -/
def M.set (m : M) (k : String) (v : Bson) : M :=
  m.filter (fun kv => kv.1 ≠ k) ++ [(k, v)]

/-- Stored documents expose their fields under their `bson` names. -/
class Document (α : Type) where
  field : α → String → Option Bson

instance : Document PostPO where
  field p k :=
    if k = "id" then some (Bson.int p.ID)
    else if k = "uin" then some (Bson.int p.Uin)
    else if k = "status" then some (Bson.status p.Status)
    else if k = "created_at" then some (Bson.int p.CreatedAt)
    else none

instance : Document Metadata where
  field d k :=
    if k = "key" then some (Bson.str d.Key)
    else if k = "value" then some (Bson.str d.Value)
    else none

/-- Errors of a driver call. -/
inductive StoreErr where
  /-- Error `mongo.ErrNoDocuments`: the query of a `FindOne` matched nothing. -/
  | ErrNoDocuments
  /-- The server rejects a malformed query (negative skip, bad sort direction, a limit
  whose opposite is not an `int64`). -/
  | badValue
  /-- The server rejects the creation of a collection that exists. -/
  | NamespaceExists
  /-- Any other failure (connectivity, serialization, duplicate key, ...). -/
  | fault (code : Nat)
  deriving DecidableEq, Repr

/-- Go's `error` value: `none` is `nil`. -/
abbrev GoError := Option StoreErr

/-- A document matches a filter when it carries every field of the filter with the
same value; the empty filter matches everything. -/
def docMatches {α : Type} [Document α] (filter : M) (d : α) : Bool :=
  filter.all (fun kv => decide (Document.field d kv.1 = some kv.2))

/-- Sort key of a document on a field. The source sorts on the integer fields `id` and
`created_at` only; a missing or non-integer field contributes the key `0`. -/
def sortKey {α : Type} [Document α] (k : String) (d : α) : Int :=
  match Document.field d k with
  | some (Bson.int v) => v
  | _ => 0

/-- Sort stage of a query: no sort keeps insertion order, direction `1` is ascending,
`-1` is descending (both stable), anything else is rejected by the server. -/
def sortDocs {α : Type} [Document α] (sort : M) (docs : List α) : Except StoreErr (List α) :=
  match sort with
  | [] => Except.ok docs
  | [(k, Bson.int dir)] =>
    if dir = 1 then Except.ok (docs.insertionSort (fun a b => sortKey k a ≤ sortKey k b))
    else if dir = -1 then Except.ok (docs.insertionSort (fun a b => sortKey k b ≤ sortKey k a))
    else Except.error StoreErr.badValue
  | _ => Except.error StoreErr.badValue

/-- Limit stage: `0` means no limit, a negative limit is taken in absolute value (the
least `int64`, which has none, is rejected in `runQuery`). -/
def limitDocs {α : Type} (limit : Int) (docs : List α) : List α :=
  if limit = 0 then docs else docs.take limit.natAbs

/-- Options of a query (`options.Find()` / `options.FindOne()`). -/
structure FindOptions where
  sort : M := []
  skip : Int := 0
  limit : Int := 0
  deriving DecidableEq, Repr

/-- Evaluation of a query on a collection: filter, sort, skip, limit. -/
def runQuery {α : Type} [Document α] (coll : List α) (filter : M) (opts : FindOptions) :
    Except StoreErr (List α) :=
  match sortDocs opts.sort (coll.filter (docMatches filter)) with
  | Except.error e => Except.error e
  | Except.ok sorted =>
    if opts.skip < 0 then Except.error StoreErr.badValue
    else if opts.limit = MIN_INT then Except.error StoreErr.badValue
    else Except.ok (limitDocs opts.limit (sorted.drop opts.skip.toNat))

/-- Struct `mongo.IndexModel`: the key document of an index and its unique option. -/
structure IndexModel where
  Keys : M
  Unique : Bool
  deriving DecidableEq, Repr

/-- The database behind `m.Client`: the collections `post`, `post_log` and `metadata`
(in insertion order), the names of the collections created by `CreateCollection`, the
indexes declared on `post`, and the outcomes scheduled for the coming driver calls
(`none`: the call goes through; `some c`: it fails with fault `c`, which stands for
any failure of the call, a rejected duplicate key included). Calls beyond the schedule
go through. -/
structure Store where
  post : List PostPO := []
  post_log : List PostLogPO := []
  metadata : List Metadata := []
  created : List String := []
  post_indexes : List IndexModel := []
  faults : List (Option Nat) := []
  deriving DecidableEq, Repr

/-- A collection exists in the database when it was created by `CreateCollection`, or
holds a document (an insertion creates the collection it writes to). -/
def Store.collectionExists (s : Store) (name : String) : Bool :=
  decide (name ∈ s.created) ||
  (decide (name = POST_COLLECTION) && !s.post.isEmpty) ||
  (decide (name = POST_LOG_COLLECTION) && !s.post_log.isEmpty) ||
  (decide (name = METADATA_COLLECTION) && !s.metadata.isEmpty)

/-- The outcome scheduled for the driver call that comes after `i` others. -/
def Store.outcome (s : Store) (i : Nat) : Option Nat := s.faults.getD i none

/-- Takes the outcome scheduled for the next driver call. -/
def Store.next (s : Store) : Option Nat × Store :=
  match s.faults with
  | [] => (none, s)
  | f :: fs => (f, { s with faults := fs })

/-- Driver call `Collection.InsertOne` on a collection: appends the document. -/
def InsertOne {α : Type} (outcome : Option Nat) (coll : List α) (doc : α) :
    Except StoreErr (List α) :=
  match outcome with
  | some c => Except.error (StoreErr.fault c)
  | none => Except.ok (coll ++ [doc])

/-- Driver call `Collection.FindOne(...).Decode`: the first document of the query. -/
def FindOne {α : Type} [Document α] (outcome : Option Nat) (coll : List α) (filter : M)
    (sort : M) : Except StoreErr α :=
  match outcome with
  | some c => Except.error (StoreErr.fault c)
  | none =>
    match runQuery coll filter { sort := sort, limit := 1 } with
    | Except.error e => Except.error e
    | Except.ok [] => Except.error StoreErr.ErrNoDocuments
    | Except.ok (d :: _) => Except.ok d

/-- Driver call `Collection.CountDocuments`. -/
def CountDocuments {α : Type} [Document α] (outcome : Option Nat) (coll : List α)
    (filter : M) : Except StoreErr Int :=
  match outcome with
  | some c => Except.error (StoreErr.fault c)
  | none => Except.ok ((coll.filter (docMatches filter)).length : Int)

/-- Driver call `Collection.Find`: the cursor over the documents of the query. -/
def Find {α : Type} [Document α] (outcome : Option Nat) (coll : List α) (filter : M)
    (opts : FindOptions) : Except StoreErr (List α) :=
  match outcome with
  | some c => Except.error (StoreErr.fault c)
  | none => runQuery coll filter opts

/-- Driver call `cursor.All`: reads every document of a cursor. -/
def CursorAll {α : Type} (outcome : Option Nat) (cursor : List α) : Except StoreErr (List α) :=
  match outcome with
  | some c => Except.error (StoreErr.fault c)
  | none => Except.ok cursor

/-- Driver call `Database.CreateCollection`: creates a collection that does not exist;
for one that exists the server answers `NamespaceExists`. -/
def CreateCollection (outcome : Option Nat) (s : Store) (name : String) :
    Except StoreErr Store :=
  match outcome with
  | some c => Except.error (StoreErr.fault c)
  | none =>
    if s.collectionExists name then Except.error StoreErr.NamespaceExists
    else Except.ok { s with created := s.created ++ [name] }

/-- Driver call `Indexes().CreateOne`: declaring an index that exists changes nothing. -/
def CreateOne (outcome : Option Nat) (indexes : List IndexModel) (ix : IndexModel) :
    Except StoreErr (List IndexModel) :=
  match outcome with
  | some c => Except.error (StoreErr.fault c)
  | none => Except.ok (if ix ∈ indexes then indexes else indexes ++ [ix])

/-! ## `sync.Mutex` -/

/-- Operations performed on a mutex. -/
inductive MutexOp where
  | lock
  | unlock
  deriving DecidableEq, Repr

/-- Go's `sync.Mutex` as a held/free flag, with the history of its operations. -/
structure Mutex where
  locked : Bool := false
  history : List MutexOp := []
  deriving DecidableEq, Repr

/-- Method `Lock`: acquires a free mutex; on a held mutex the caller blocks, which in a
sequential run means that it never returns (`none`). -/
def Mutex.Lock (mu : Mutex) : Option Mutex :=
  if mu.locked then none
  else some { locked := true, history := mu.history ++ [MutexOp.lock] }

/-- Method `Unlock`: releases a held mutex; on a free mutex the Go runtime aborts the
program (`none`). -/
def Mutex.Unlock (mu : Mutex) : Option Mutex :=
  if mu.locked then some { locked := false, history := mu.history ++ [MutexOp.unlock] }
  else none

/-! ## `MongoDBManager` -/

/-- Struct `MongoDBManager`: the database reached through `Client`, and `PostLock`. -/
structure MongoDBManager where
  Client : Store := {}
  PostLock : Mutex := {}
  deriving DecidableEq, Repr

/-- Method `GetMaxPostID`. -/
def GetMaxPostID (m : MongoDBManager) : (Int × GoError) × MongoDBManager :=
  let (outcome, s) := m.Client.next
  let m1 : MongoDBManager := { m with Client := s }
  match FindOne outcome s.post [] [("id", Bson.int (-1))] with
  | Except.error err =>
    if err = StoreErr.ErrNoDocuments then ((0, none), m1)
    else ((0, some err), m1)
  | Except.ok post => ((post.ID, none), m1)

/-- Method `AddPostLog`. -/
def AddPostLog (m : MongoDBManager) (log : PostLogPO) : GoError × MongoDBManager :=
  let (outcome, s) := m.Client.next
  match InsertOne outcome s.post_log log with
  | Except.error err => (some err, { m with Client := s })
  | Except.ok coll => (none, { m with Client := { s with post_log := coll } })

/-- Method `AddPost`. The argument `post` is the struct that the caller's `*PostPO`
points to, and `now` is the value of `util.GetCSTTime()`. The result is `none` when the
call never returns (see `Mutex.Lock`, `Mutex.Unlock`); otherwise it is made of the
returned values, of the caller's struct after the call (the assignment `post.ID = id`
writes to it), and of the manager after the call. -/
def AddPost (m : MongoDBManager) (post : PostPO) (now : Int) :
    Option ((Int × GoError) × PostPO × MongoDBManager) :=
  match m.PostLock.Lock with
  | none => none
  | some mu =>
    let m0 : MongoDBManager := { m with PostLock := mu }
    match GetMaxPostID m0 with
    | ((_, some err), m1) =>
      (m1.PostLock.Unlock).map
        (fun mu1 => ((-1, some err), post, { m1 with PostLock := mu1 }))
    | ((maxID, none), m1) =>
      let id := wrapInt (maxID + 1)
      let post1 : PostPO := { post with ID := id }
      let (outcome, s) := m1.Client.next
      match InsertOne outcome s.post post1 with
      | Except.error err =>
        (m1.PostLock.Unlock).map
          (fun mu1 => ((-1, some err), post1, { m1 with Client := s, PostLock := mu1 }))
      | Except.ok coll =>
        let m2 : MongoDBManager := { m1 with Client := { s with post := coll } }
        match AddPostLog m2
            { PostID := id, Op := post1.Uin, OldStat := POST_STATUS_ANY,
              NewStat := POST_STATUS_PENDING_APPROVAL, Comment := "新稿件",
              CreatedAt := now } with
        | (some err, m3) =>
          (m3.PostLock.Unlock).map
            (fun mu1 => ((-1, some err), post1, { m3 with PostLock := mu1 }))
        | (none, m3) =>
          (m3.PostLock.Unlock).map
            (fun mu1 => ((id, none), post1, { m3 with PostLock := mu1 }))

/-- Loop of `CheckMetadata` over the catalog: per key one `CountDocuments`, and one
`InsertOne` when the count is zero; the first failure is returned. -/
def CheckMetadata.loop : List Metadata → Store → GoError × Store
  | [], s => (none, s)
  | meta :: rest, s =>
    let (outcome, s1) := s.next
    match CountDocuments outcome s1.metadata [("key", Bson.str meta.Key)] with
    | Except.error err => (some err, s1)
    | Except.ok exist =>
      if exist = 0 then
        let (outcome2, s2) := s1.next
        match InsertOne outcome2 s2.metadata meta with
        | Except.error err => (some err, s2)
        | Except.ok coll => CheckMetadata.loop rest { s2 with metadata := coll }
      else CheckMetadata.loop rest s1

/-- Method `CheckMetadata`: `CreateCollection` on the metadata collection, whose error
is returned, then the loop over the catalog. -/
def CheckMetadata (m : MongoDBManager) : GoError × MongoDBManager :=
  let (outcome, s) := m.Client.next
  match CreateCollection outcome s METADATA_COLLECTION with
  | Except.error err => (some err, { m with Client := s })
  | Except.ok s0 =>
    let (err, s1) := CheckMetadata.loop PresetMetadata s0
    (err, { m with Client := s1 })

/-- Function `NewMongoDBManager` on the database that the configured URI reaches. The
driver calls are `mongo.Connect`, `Ping`, those of `CheckMetadata`, and
`Indexes().CreateOne`; an error is the value passed to `panic`. -/
def NewMongoDBManager (db : Store) : Except StoreErr MongoDBManager :=
  let (connect, s0) := db.next
  match connect with
  | some c => Except.error (StoreErr.fault c)
  | none =>
    let m : MongoDBManager := { Client := s0, PostLock := {} }
    let (ping, s1) := m.Client.next
    match ping with
    | some c => Except.error (StoreErr.fault c)
    | none =>
      match CheckMetadata { m with Client := s1 } with
      | (some err, _) => Except.error err
      | (none, m1) =>
        let (outcome, s2) := m1.Client.next
        match CreateOne outcome s2.post_indexes
            { Keys := [("uuid", Bson.int 1)], Unique := true } with
        | Except.error err => Except.error err
        | Except.ok indexes =>
          Except.ok { m1 with Client := { s2 with post_indexes := indexes } }

/-- The filter and options that `GetPosts` passes to `Find`. -/
def GetPosts.query (uin : Int) (status : PostStatus) (timeOrder page pageSize : Int) :
    M × FindOptions :=
  let condition : M := []
  let condition := if uin ≠ -1 then condition.set "uin" (Bson.int uin) else condition
  let condition :=
    if status ≠ POST_STATUS_ANY then condition.set "status" (Bson.status status)
    else condition
  let findOptions : FindOptions := {}
  let findOptions := { findOptions with sort := [("created_at", Bson.int timeOrder)] }
  let findOptions := { findOptions with skip := wrapInt (wrapInt (page - 1) * pageSize) }
  let findOptions := { findOptions with limit := pageSize }
  (condition, findOptions)

/-- Method `GetPosts`. A nil slice is the empty list. -/
def GetPosts (m : MongoDBManager) (uin : Int) (status : PostStatus)
    (timeOrder page pageSize : Int) : (List PostPO × GoError) × MongoDBManager :=
  let (condition, findOptions) := GetPosts.query uin status timeOrder page pageSize
  let (outcome, s) := m.Client.next
  match Find outcome s.post condition findOptions with
  | Except.error err => (([], some err), { m with Client := s })
  | Except.ok cursor =>
    let (outcome2, s2) := s.next
    match CursorAll outcome2 cursor with
    | Except.error err => (([], some err), { m with Client := s2 })
    | Except.ok posts => ((posts, none), { m with Client := s2 })

/-- Method `GetPost`. A nil pointer is `none`. -/
def GetPost (m : MongoDBManager) (id : Int) : (Option PostPO × GoError) × MongoDBManager :=
  let (outcome, s) := m.Client.next
  let m1 : MongoDBManager := { m with Client := s }
  match FindOne outcome s.post [("id", Bson.int id)] [] with
  | Except.error err =>
    if err = StoreErr.ErrNoDocuments then ((none, none), m1)
    else ((none, some err), m1)
  | Except.ok post => ((some post, none), m1)

/-- Successive calls of `AddPost`, each with its post and its clock value; the results
are listed in call order. -/
def addPosts (m : MongoDBManager) :
    List (PostPO × Int) → Option (List (Int × GoError) × MongoDBManager)
  | [] => some ([], m)
  | (post, now) :: rest =>
    match AddPost m post now with
    | none => none
    | some (r, _, m1) =>
      match addPosts m1 rest with
      | none => none
      | some (rs, m2) => some (r :: rs, m2)

/-! ## Goroutines running `AddPost` -/

/-- Where a call of `AddPost` stands: before one of its mutex operations or driver
calls, with the values it holds there, or returned. -/
inductive AddPostPc where
  /-- Before `m.PostLock.Lock()`. -/
  | atLock
  /-- Before `m.GetMaxPostID()`, holding the lock. -/
  | atGetMaxPostID
  /-- Before the `InsertOne` of the post, after `id += 1` and `post.ID = id`. -/
  | atInsertOne (id : Int)
  /-- Before `m.AddPostLog(...)`. -/
  | atAddPostLog (id : Int)
  /-- Before the `m.PostLock.Unlock()` of an exit path, with the values to return. -/
  | atUnlock (result : Int × GoError)
  /-- After `return`. -/
  | returned (result : Int × GoError)
  deriving DecidableEq, Repr

/-- A goroutine that runs `AddPost`: the struct that its argument points to, the
value that `util.GetCSTTime()` gives it, and where it stands. -/
structure Goroutine where
  post : PostPO
  now : Int
  pc : AddPostPc
  deriving DecidableEq, Repr

/-- One mutex operation or driver call of a goroutine that runs `AddPost`, on the
manager shared with the other goroutines. The result is `none` when the goroutine cannot
move: it is blocked in `Lock` on a held mutex, it has returned, or `Unlock` aborts. -/
def Goroutine.step (m : MongoDBManager) (g : Goroutine) : Option (MongoDBManager × Goroutine) :=
  match g.pc with
  | AddPostPc.atLock =>
    (m.PostLock.Lock).map
      (fun mu => ({ m with PostLock := mu }, { g with pc := AddPostPc.atGetMaxPostID }))
  | AddPostPc.atGetMaxPostID =>
    match GetMaxPostID m with
    | ((_, some err), m1) => some (m1, { g with pc := AddPostPc.atUnlock (-1, some err) })
    | ((maxID, none), m1) =>
      let id := wrapInt (maxID + 1)
      some (m1, { g with post := { g.post with ID := id }, pc := AddPostPc.atInsertOne id })
  | AddPostPc.atInsertOne id =>
    let (outcome, s) := m.Client.next
    match InsertOne outcome s.post g.post with
    | Except.error err =>
      some ({ m with Client := s }, { g with pc := AddPostPc.atUnlock (-1, some err) })
    | Except.ok coll =>
      some ({ m with Client := { s with post := coll } },
        { g with pc := AddPostPc.atAddPostLog id })
  | AddPostPc.atAddPostLog id =>
    match AddPostLog m
        { PostID := id, Op := g.post.Uin, OldStat := POST_STATUS_ANY,
          NewStat := POST_STATUS_PENDING_APPROVAL, Comment := "新稿件",
          CreatedAt := g.now } with
    | (some err, m3) => some (m3, { g with pc := AddPostPc.atUnlock (-1, some err) })
    | (none, m3) => some (m3, { g with pc := AddPostPc.atUnlock (id, none) })
  | AddPostPc.atUnlock result =>
    (m.PostLock.Unlock).map
      (fun mu => ({ m with PostLock := mu }, { g with pc := AddPostPc.returned result }))
  | AddPostPc.returned _ => none

/-- One manager shared by goroutines that run `AddPost`. -/
structure Config where
  m : MongoDBManager
  goroutines : List Goroutine
  deriving DecidableEq, Repr

/-- The scheduler lets goroutine `i` make one step; `none` when it cannot move. -/
def Config.step (c : Config) (i : Nat) : Option Config :=
  match c.goroutines[i]? with
  | none => none
  | some g =>
    (g.step c.m).map (fun r => { m := r.1, goroutines := c.goroutines.set i r.2 })

/-- Runs a schedule: the goroutines that move, in the order in which they move. -/
def Config.run (c : Config) : List Nat → Option Config
  | [] => some c
  | i :: rest =>
    match c.step i with
    | none => none
    | some c1 => c1.run rest

/-- Descending order on a field. -/
def descOn {α : Type} [Document α] (k : String) (a b : α) : Prop := sortKey k b ≤ sortKey k a

instance {α : Type} [Document α] (k : String) : DecidableRel (descOn (α := α) k) :=
  fun a b => inferInstanceAs (Decidable (sortKey k b ≤ sortKey k a))

instance {α : Type} [Document α] (k : String) : IsTotal α (descOn k) :=
  ⟨fun a b => le_total (sortKey k b) (sortKey k a)⟩

instance {α : Type} [Document α] (k : String) : IsTrans α (descOn k) :=
  ⟨fun _ _ _ h1 h2 => le_trans h2 h1⟩

/-- The id that the max-id query reads from a collection: `0` on an empty one. -/
def currentMaxID (posts : List PostPO) : Int :=
  match FindOne none posts [] [("id", Bson.int (-1))] with
  | Except.ok p => p.ID
  | Except.error _ => 0

/-- The creation log entry that `AddPost` appends for the id `id`. -/
def creationLog (id : Int) (post : PostPO) (now : Int) : PostLogPO :=
  { PostID := id, Op := post.Uin, OldStat := POST_STATUS_ANY,
    NewStat := POST_STATUS_PENDING_APPROVAL, Comment := "新稿件", CreatedAt := now }

/-- The mutex after one `Lock` and one `Unlock`. -/
def lockedAndReleased (mu : Mutex) : Mutex :=
  { locked := false, history := mu.history ++ [MutexOp.lock, MutexOp.unlock] }

/-- The ids `1, ..., n` in increasing order. -/
def idsUpTo (n : Nat) : List Int := (List.range n).map (fun (i : Nat) => (i : Int) + 1)

/-- The post that a call stores when it is given the id `k + 1`. -/
def stampPost (kp : Nat × PostPO × Int) : PostPO := { kp.2.1 with ID := (kp.1 : Int) + 1 }

/-- The log entry that a call appends when it is given the id `k + 1`. -/
def stampLog (kp : Nat × PostPO × Int) : PostLogPO :=
  creationLog ((kp.1 : Int) + 1) kp.2.1 kp.2.2

/-- Managers reachable from a store without posts and log entries by `AddPost` calls
that return, whatever their outcome. -/
inductive Reachable : MongoDBManager → Prop where
  | empty (m : MongoDBManager) (hp : m.Client.post = []) (hg : m.Client.post_log = []) :
      Reachable m
  | addPost (m : MongoDBManager) (post : PostPO) (now : Int) (r : Int × GoError)
      (post' : PostPO) (m' : MongoDBManager) (h : Reachable m)
      (hs : AddPost m post now = some (r, post', m')) :
      Reachable m'

/-- Number of metadata documents stored under a key. -/
def keyCount (k : String) (coll : List Metadata) : Nat := (coll.map (fun d => d.Key)).count k

/-- Whether a goroutine stands between its `Lock` and its `Unlock`. -/
def Goroutine.inCritical (g : Goroutine) : Bool :=
  match g.pc with
  | AddPostPc.atLock => false
  | AddPostPc.returned _ => false
  | _ => true

/-- The id under which a goroutine has inserted its post, once it has. -/
def Goroutine.assigned (g : Goroutine) : Option Int :=
  match g.pc with
  | AddPostPc.atAddPostLog id => some id
  | AddPostPc.atUnlock r => some r.1
  | AddPostPc.returned r => some r.1
  | _ => none

/-- Number of steps that a goroutine has made on the path without failure. -/
def Goroutine.progress (g : Goroutine) : Nat :=
  match g.pc with
  | AddPostPc.atLock => 0
  | AddPostPc.atGetMaxPostID => 1
  | AddPostPc.atInsertOne _ => 2
  | AddPostPc.atAddPostLog _ => 3
  | AddPostPc.atUnlock _ => 4
  | AddPostPc.returned _ => 5

/-- What a goroutine holds when no driver call has failed and `k` posts are stored. -/
def Goroutine.consistent (k : Nat) (g : Goroutine) : Prop :=
  match g.pc with
  | AddPostPc.atInsertOne id => id = (k : Int) + 1 ∧ g.post.ID = id
  | AddPostPc.atUnlock r => r.2 = none
  | AddPostPc.returned r => r.2 = none
  | _ => True

/-- Invariant of the runs of `N` concurrent calls in which no driver call fails, after
`steps` steps. -/
structure Config.Inv (N steps : Nat) (c : Config) : Prop where
  ok : ∀ i, c.m.Client.outcome i = none
  ids : c.m.Client.post.map (fun p => p.ID) = idsUpTo c.m.Client.post.length
  assigned : (c.goroutines.filterMap Goroutine.assigned).Perm (idsUpTo c.m.Client.post.length)
  crit : c.goroutines.countP Goroutine.inCritical = if c.m.PostLock.locked then 1 else 0
  consistent : ∀ g ∈ c.goroutines, g.consistent c.m.Client.post.length
  len : c.goroutines.length = N
  progress : (c.goroutines.map Goroutine.progress).sum = steps

/-! ## Auxiliary facts -/

theorem wrapInt_of_inRange (x : Int) (h1 : MIN_INT ≤ x) (h2 : x ≤ MAX_INT) : wrapInt x = x := by
  unfold wrapInt
  unfold MIN_INT at h1
  unfold MAX_INT at h2
  norm_num at h1 h2 ⊢
  omega

theorem sortKey_id (p : PostPO) : sortKey "id" p = p.ID := by
  simp [sortKey, Document.field]

theorem sortKey_created_at (p : PostPO) : sortKey "created_at" p = p.CreatedAt := by
  simp [sortKey, Document.field]

theorem docMatches_nil {α : Type} [Document α] (d : α) : docMatches [] d = true := by
  simp [docMatches]

theorem filter_docMatches_nil {α : Type} [Document α] (coll : List α) :
    coll.filter (docMatches []) = coll := by
  simp [docMatches]

theorem runQuery_desc {α : Type} [Document α] (coll : List α) (filter : M) (k : String)
    (skip limit : Int) (hs : 0 ≤ skip) (hlim : limit ≠ MIN_INT) :
    runQuery coll filter { sort := [(k, Bson.int (-1))], skip := skip, limit := limit } =
      Except.ok (limitDocs limit
        (((coll.filter (docMatches filter)).insertionSort (descOn k)).drop skip.toNat)) := by
  simp only [runQuery, sortDocs, not_lt.mpr hs, hlim]
  simp
  rfl

theorem head_insertionSort_desc {α : Type} [Document α] (k : String) (coll : List α)
    (d : α) (rest : List α) (h : coll.insertionSort (descOn k) = d :: rest) :
    d ∈ coll ∧ ∀ q ∈ coll, sortKey k q ≤ sortKey k d := by
  have hs : List.Sorted (descOn k) (d :: rest) := h ▸ List.sorted_insertionSort (descOn k) coll
  have hm : ∀ x, x ∈ d :: rest ↔ x ∈ coll := fun x => by
    rw [← h]; exact List.mem_insertionSort (descOn k)
  refine ⟨(hm d).1 (List.mem_cons_self d rest), fun q hq => ?_⟩
  rcases List.mem_cons.1 ((hm q).2 hq) with rfl | hr
  · exact le_refl _
  · exact List.rel_of_sorted_cons hs q hr

theorem FindOne_maxID_nil (outcome : Option Nat) :
    FindOne outcome ([] : List PostPO) [] [("id", Bson.int (-1))] =
      match outcome with
      | some c => Except.error (StoreErr.fault c)
      | none => Except.error StoreErr.ErrNoDocuments := by
  have h1 : ¬ (1 : Int) = MIN_INT := by decide
  cases outcome <;> simp [FindOne, runQuery, sortDocs, limitDocs, h1]

theorem FindOne_maxID_ne_nil (posts : List PostPO) (hne : posts ≠ []) :
    ∃ p ∈ posts, FindOne none posts [] [("id", Bson.int (-1))] = Except.ok p ∧
      ∀ q ∈ posts, q.ID ≤ p.ID := by
  unfold FindOne
  simp only
  rw [runQuery_desc posts [] "id" 0 1 (le_refl 0) (by decide), filter_docMatches_nil]
  cases h : posts.insertionSort (descOn "id") with
  | nil =>
    have := congrArg List.length h
    rw [List.length_insertionSort] at this
    exact absurd (List.length_eq_zero.1 this) hne
  | cons d rest =>
    obtain ⟨hd, hmax⟩ := head_insertionSort_desc "id" posts d rest h
    refine ⟨d, hd, ?_, fun q hq => ?_⟩
    · simp [limitDocs]
    · have := hmax q hq
      rwa [sortKey_id, sortKey_id] at this

theorem Store.next_fst (s : Store) : s.next.1 = s.outcome 0 := by
  cases h : s.faults <;> simp [Store.next, Store.outcome, h]

theorem Store.next_snd (s : Store) : s.next.2 = { s with faults := s.faults.drop 1 } := by
  cases h : s.faults <;> simp [Store.next, h]
  cases s; simp_all

theorem Store.outcome_drop (s : Store) (n i : Nat) :
    Store.outcome { s with faults := s.faults.drop n } i = s.outcome (n + i) := by
  simp [Store.outcome, List.getD_eq_getElem?_getD, List.getElem?_drop]

theorem currentMaxID_nil : currentMaxID [] = 0 := by
  simp [currentMaxID, FindOne_maxID_nil]

theorem currentMaxID_spec (posts : List PostPO) (hne : posts ≠ []) :
    (∃ p ∈ posts, p.ID = currentMaxID posts) ∧ ∀ q ∈ posts, q.ID ≤ currentMaxID posts := by
  obtain ⟨p, hp, hf, hmax⟩ := FindOne_maxID_ne_nil posts hne
  simp only [currentMaxID, hf]
  exact ⟨⟨p, hp, rfl⟩, hmax⟩

theorem GetMaxPostID_fault (m : MongoDBManager) (c : Nat) (h : m.Client.outcome 0 = some c) :
    GetMaxPostID m =
      ((0, some (StoreErr.fault c)),
        { m with Client := { m.Client with faults := m.Client.faults.drop 1 } }) := by
  simp [GetMaxPostID, Store.next_fst, Store.next_snd, h, FindOne]

theorem GetMaxPostID_ok (m : MongoDBManager) (h : m.Client.outcome 0 = none) :
    GetMaxPostID m =
      ((currentMaxID m.Client.post, none),
        { m with Client := { m.Client with faults := m.Client.faults.drop 1 } }) := by
  by_cases hne : m.Client.post = []
  · simp [GetMaxPostID, Store.next_fst, Store.next_snd, h, hne, currentMaxID, FindOne_maxID_nil]
  · obtain ⟨p, hp, hf, hmax⟩ := FindOne_maxID_ne_nil m.Client.post hne
    simp [GetMaxPostID, Store.next_fst, Store.next_snd, h, currentMaxID, hf]

theorem getD_tail_none (l : List (Option Nat)) (i : Nat) :
    l.tail.getD i none = l.getD (i + 1) none := by
  cases l <;> simp

theorem getD_drop_none (l : List (Option Nat)) (n i : Nat) :
    (l.drop n).getD i none = l.getD (n + i) none := by
  simp [List.getD_eq_getElem?_getD, List.getElem?_drop]

theorem AddPost_blocked (m : MongoDBManager) (post : PostPO) (now : Int)
    (hl : m.PostLock.locked = true) : AddPost m post now = none := by
  simp [AddPost, Mutex.Lock, hl]

theorem AddPost_getMax_fault (m : MongoDBManager) (post : PostPO) (now : Int) (c : Nat)
    (hl : m.PostLock.locked = false) (h1 : m.Client.outcome 0 = some c) :
    AddPost m post now =
      some ((-1, some (StoreErr.fault c)), post,
        { Client := { m.Client with faults := m.Client.faults.drop 1 },
          PostLock := lockedAndReleased m.PostLock }) := by
  have hg := GetMaxPostID_fault
    { m with PostLock := { locked := true, history := m.PostLock.history ++ [MutexOp.lock] } }
    c h1
  simp [AddPost, Mutex.Lock, Mutex.Unlock, hl, hg, lockedAndReleased]

theorem AddPost_insert_fault (m : MongoDBManager) (post : PostPO) (now : Int) (c : Nat)
    (hl : m.PostLock.locked = false) (h1 : m.Client.outcome 0 = none)
    (h2 : m.Client.outcome 1 = some c) :
    AddPost m post now =
      some ((-1, some (StoreErr.fault c)),
        { post with ID := wrapInt (currentMaxID m.Client.post + 1) },
        { Client := { m.Client with faults := m.Client.faults.drop 2 },
          PostLock := lockedAndReleased m.PostLock }) := by
  have hg := GetMaxPostID_ok
    { m with PostLock := { locked := true, history := m.PostLock.history ++ [MutexOp.lock] } }
    h1
  simp [Store.outcome] at h2
  simp [AddPost, Mutex.Lock, Mutex.Unlock, hl, hg, lockedAndReleased,
    Store.next_fst, Store.next_snd, InsertOne, Store.outcome, getD_tail_none, h2]

theorem AddPost_log_fault (m : MongoDBManager) (post : PostPO) (now : Int) (c : Nat)
    (hl : m.PostLock.locked = false) (h1 : m.Client.outcome 0 = none)
    (h2 : m.Client.outcome 1 = none) (h3 : m.Client.outcome 2 = some c) :
    AddPost m post now =
      some ((-1, some (StoreErr.fault c)),
        { post with ID := wrapInt (currentMaxID m.Client.post + 1) },
        { Client := { m.Client with
            post := m.Client.post ++
              [{ post with ID := wrapInt (currentMaxID m.Client.post + 1) }],
            faults := m.Client.faults.drop 3 },
          PostLock := lockedAndReleased m.PostLock }) := by
  have hg := GetMaxPostID_ok
    { m with PostLock := { locked := true, history := m.PostLock.history ++ [MutexOp.lock] } }
    h1
  simp [Store.outcome] at h2 h3
  simp [AddPost, AddPostLog, Mutex.Lock, Mutex.Unlock, hl, hg, lockedAndReleased,
    Store.next_fst, Store.next_snd, InsertOne, Store.outcome, getD_tail_none,
    getD_drop_none, h2, h3]

theorem AddPost_ok (m : MongoDBManager) (post : PostPO) (now : Int)
    (hl : m.PostLock.locked = false) (h1 : m.Client.outcome 0 = none)
    (h2 : m.Client.outcome 1 = none) (h3 : m.Client.outcome 2 = none) :
    AddPost m post now =
      some ((wrapInt (currentMaxID m.Client.post + 1), none),
        { post with ID := wrapInt (currentMaxID m.Client.post + 1) },
        { Client := { m.Client with
            post := m.Client.post ++
              [{ post with ID := wrapInt (currentMaxID m.Client.post + 1) }],
            post_log := m.Client.post_log ++
              [creationLog (wrapInt (currentMaxID m.Client.post + 1)) post now],
            faults := m.Client.faults.drop 3 },
          PostLock := lockedAndReleased m.PostLock }) := by
  have hg := GetMaxPostID_ok
    { m with PostLock := { locked := true, history := m.PostLock.history ++ [MutexOp.lock] } }
    h1
  simp [Store.outcome] at h2 h3
  simp [AddPost, AddPostLog, Mutex.Lock, Mutex.Unlock, hl, hg, lockedAndReleased,
    Store.next_fst, Store.next_snd, InsertOne, Store.outcome, getD_tail_none,
    getD_drop_none, h2, h3, creationLog]

theorem idsUpTo_succ (n : Nat) : idsUpTo (n + 1) = idsUpTo n ++ [(n : Int) + 1] := by
  simp [idsUpTo, List.range_succ]

theorem mem_idsUpTo (n : Nat) (i : Int) : i ∈ idsUpTo n ↔ 1 ≤ i ∧ i ≤ n := by
  simp only [idsUpTo, List.mem_map, List.mem_range]
  constructor
  · rintro ⟨k, hk, rfl⟩
    omega
  · rintro ⟨h1, h2⟩
    refine ⟨(i - 1).toNat, ?_, ?_⟩ <;> omega

theorem nodup_idsUpTo (n : Nat) : (idsUpTo n).Nodup := by
  unfold idsUpTo
  refine List.Nodup.map ?_ (List.nodup_range n)
  intro a b h
  simpa using h

theorem length_idsUpTo (n : Nat) : (idsUpTo n).length = n := by
  simp [idsUpTo]

theorem currentMaxID_of_ids (posts : List PostPO) (n : Nat)
    (h : posts.map (fun p => p.ID) = idsUpTo n) : currentMaxID posts = n := by
  cases n with
  | zero =>
    have : posts = [] := by simpa [idsUpTo] using h
    rw [this, currentMaxID_nil]; rfl
  | succ k =>
    have hne : posts ≠ [] := by
      intro he
      rw [he] at h
      have := congrArg List.length h
      rw [length_idsUpTo] at this
      simp at this
    obtain ⟨⟨p, hp, hpe⟩, hmax⟩ := currentMaxID_spec posts hne
    have hmem : ∀ i : Int, i ∈ idsUpTo (k + 1) ↔ ∃ q ∈ posts, q.ID = i := by
      intro i
      rw [← h, List.mem_map]
    have hup : currentMaxID posts ≤ ((k + 1 : Nat) : Int) := by
      have := ((mem_idsUpTo (k + 1) p.ID).1 ((hmem p.ID).2 ⟨p, hp, rfl⟩)).2
      rwa [hpe] at this
    have hlow : ((k + 1 : Nat) : Int) ≤ currentMaxID posts := by
      obtain ⟨q, hq, hqe⟩ := (hmem ((k + 1 : Nat) : Int)).1
        ((mem_idsUpTo (k + 1) _).2 ⟨by push_cast; omega, le_refl _⟩)
      rw [← hqe]
      exact hmax q hq
    exact le_antisymm hup hlow

theorem addPosts_of_ids (calls : List (PostPO × Int)) :
    ∀ (m : MongoDBManager) (n : Nat), m.PostLock.locked = false →
      (∀ i, m.Client.outcome i = none) →
      m.Client.post.map (fun p => p.ID) = idsUpTo n →
      ((n + calls.length : Nat) : Int) ≤ MAX_INT →
      ∃ m', addPosts m calls =
          some ((List.range calls.length).map
            (fun k => (((n + k : Nat) : Int) + 1, (none : GoError))), m') ∧
        m'.Client.post = m.Client.post ++ (calls.enumFrom n).map stampPost ∧
        m'.Client.post_log = m.Client.post_log ++ (calls.enumFrom n).map stampLog ∧
        m'.PostLock.locked = false := by
  induction calls with
  | nil =>
    intro m n hl _ _ _
    exact ⟨m, by simp [addPosts], by simp, by simp, hl⟩
  | cons c rest ih =>
    intro m n hl hok hids hN
    obtain ⟨post, now⟩ := c
    have hcur : currentMaxID m.Client.post = n := currentMaxID_of_ids _ n hids
    have hw : wrapInt ((n : Int) + 1) = (n : Int) + 1 := by
      apply wrapInt_of_inRange
      · unfold MIN_INT; norm_num; omega
      · simp only [List.length_cons] at hN
        push_cast at hN ⊢
        omega
    have hadd := AddPost_ok m post now hl (hok 0) (hok 1) (hok 2)
    rw [hcur, hw] at hadd
    obtain ⟨m1, hadd, hp1, hg1, hf1, hk1⟩ : ∃ m1 : MongoDBManager,
        AddPost m post now =
          some (((n : Int) + 1, none), { post with ID := (n : Int) + 1 }, m1) ∧
        m1.Client.post = m.Client.post ++ [{ post with ID := (n : Int) + 1 }] ∧
        m1.Client.post_log = m.Client.post_log ++ [creationLog ((n : Int) + 1) post now] ∧
        m1.Client.faults = m.Client.faults.drop 3 ∧ m1.PostLock.locked = false :=
      ⟨_, hadd, rfl, rfl, rfl, rfl⟩
    obtain ⟨m', hrun, hposts, hlogs, hl'⟩ := ih m1 (n + 1) hk1
      (fun i => by
        have h3 := hok (3 + i)
        simp only [Store.outcome] at h3 ⊢
        rw [hf1, getD_drop_none]
        exact h3)
      (by rw [hp1, List.map_append, hids, idsUpTo_succ]; rfl)
      (by
        simp only [List.length_cons] at hN
        push_cast at hN ⊢
        omega)
    refine ⟨m', ?_, ?_, ?_, hl'⟩
    · simp only [addPosts, hadd, hrun, List.length_cons]
      rw [List.range_succ_eq_map]
      simp only [List.map_cons, List.map_map]
      have hfun : ((fun k => (((n + k : Nat) : Int) + 1, (none : GoError))) ∘ Nat.succ) =
          (fun k => (((n + 1 + k : Nat) : Int) + 1, (none : GoError))) := by
        funext k
        simp only [Function.comp, Nat.succ_eq_add_one]
        rw [show n + (k + 1) = n + 1 + k by omega]
      rw [hfun]
      rfl
    · rw [hposts, hp1]
      simp [List.enumFrom, stampPost]
    · rw [hlogs, hg1]
      simp [List.enumFrom, stampLog]

theorem AddPost_effect (m m' : MongoDBManager) (post post' : PostPO) (now : Int)
    (r : Int × GoError) (h : AddPost m post now = some (r, post', m')) :
    (m'.Client.post = m.Client.post ∧ m'.Client.post_log = m.Client.post_log ∧
      r.2 ≠ none) ∨
    (m'.Client.post =
        m.Client.post ++ [{ post with ID := wrapInt (currentMaxID m.Client.post + 1) }] ∧
      m'.Client.post_log = m.Client.post_log ∧ r.2 ≠ none) ∨
    (m'.Client.post =
        m.Client.post ++ [{ post with ID := wrapInt (currentMaxID m.Client.post + 1) }] ∧
      m'.Client.post_log = m.Client.post_log ++
        [creationLog (wrapInt (currentMaxID m.Client.post + 1)) post now] ∧
      r = (wrapInt (currentMaxID m.Client.post + 1), none)) := by
  cases hl : m.PostLock.locked with
  | true => rw [AddPost_blocked m post now hl] at h; exact absurd h (by simp)
  | false =>
    cases h1 : m.Client.outcome 0 with
    | some c =>
      rw [AddPost_getMax_fault m post now c hl h1] at h
      obtain ⟨rfl, hrest⟩ := Prod.mk.inj (Option.some.inj h)
      obtain ⟨-, rfl⟩ := Prod.mk.inj hrest
      exact Or.inl ⟨rfl, rfl, by simp⟩
    | none =>
      cases h2 : m.Client.outcome 1 with
      | some c =>
        rw [AddPost_insert_fault m post now c hl h1 h2] at h
        obtain ⟨rfl, hrest⟩ := Prod.mk.inj (Option.some.inj h)
        obtain ⟨-, rfl⟩ := Prod.mk.inj hrest
        exact Or.inl ⟨rfl, rfl, by simp⟩
      | none =>
        cases h3 : m.Client.outcome 2 with
        | some c =>
          rw [AddPost_log_fault m post now c hl h1 h2 h3] at h
          obtain ⟨rfl, hrest⟩ := Prod.mk.inj (Option.some.inj h)
          obtain ⟨-, rfl⟩ := Prod.mk.inj hrest
          exact Or.inr (Or.inl ⟨rfl, rfl, by simp⟩)
        | none =>
          rw [AddPost_ok m post now hl h1 h2 h3] at h
          obtain ⟨rfl, hrest⟩ := Prod.mk.inj (Option.some.inj h)
          obtain ⟨-, rfl⟩ := Prod.mk.inj hrest
          exact Or.inr (Or.inr ⟨rfl, rfl, rfl⟩)

theorem Reachable.ids (m : MongoDBManager) (h : Reachable m) :
    (m.Client.post.length : Int) ≤ MAX_INT →
      m.Client.post.map (fun p => p.ID) = idsUpTo m.Client.post.length ∧
      ∀ l ∈ m.Client.post_log, 1 ≤ l.PostID ∧ l.PostID ≤ m.Client.post.length := by
  induction h with
  | empty m hp hg =>
    intro _
    rw [hp, hg]
    exact ⟨rfl, by simp⟩
  | addPost m post now r post' m' _ hs ih =>
    intro hlen
    have happ : ∀ id : Int, m'.Client.post = m.Client.post ++ [{ post with ID := id }] →
        (m.Client.post.length : Int) + 1 ≤ MAX_INT := by
      intro id hp
      rw [hp] at hlen
      simpa using hlen
    have hstep : (m.Client.post.length : Int) + 1 ≤ MAX_INT →
        wrapInt (currentMaxID m.Client.post + 1) = (m.Client.post.length : Int) + 1 ∧
        m.Client.post.map (fun p => p.ID) = idsUpTo m.Client.post.length ∧
        ∀ l ∈ m.Client.post_log, 1 ≤ l.PostID ∧ l.PostID ≤ m.Client.post.length := by
      intro hb
      obtain ⟨hids, hlogs⟩ := ih (by omega)
      refine ⟨?_, hids, hlogs⟩
      rw [currentMaxID_of_ids _ _ hids]
      apply wrapInt_of_inRange
      · unfold MIN_INT; norm_num; omega
      · exact hb
    rcases AddPost_effect m m' post post' now r hs with
      ⟨hp, hg, -⟩ | ⟨hp, hg, -⟩ | ⟨hp, hg, -⟩
    · rw [hp, hg]; rw [hp] at hlen; exact ih hlen
    · obtain ⟨hw, hids, hlogs⟩ := hstep (happ _ hp)
      rw [hp, hg, hw]
      refine ⟨?_, fun l hl => ?_⟩
      · rw [List.map_append, hids, List.length_append, List.length_singleton, idsUpTo_succ]
        rfl
      · have := hlogs l hl
        simp only [List.length_append, List.length_singleton]
        push_cast
        omega
    · obtain ⟨hw, hids, hlogs⟩ := hstep (happ _ hp)
      rw [hp, hg, hw]
      refine ⟨?_, fun l hl => ?_⟩
      · rw [List.map_append, hids, List.length_append, List.length_singleton, idsUpTo_succ]
        rfl
      · simp only [List.length_append, List.length_singleton]
        push_cast
        rcases List.mem_append.1 hl with hl | hl
        · have := hlogs l hl
          omega
        · rw [List.mem_singleton.1 hl]
          simp only [creationLog]
          omega

theorem GetPosts_newest_query :
    GetPosts.query (-1) POST_STATUS_ANY (-1) 1 10 =
      ([], { sort := [("created_at", Bson.int (-1))], skip := 0, limit := 10 }) := by
  decide

theorem GetPosts.query_filter (uin : Int) (status : PostStatus)
    (timeOrder page pageSize : Int) :
    (GetPosts.query uin status timeOrder page pageSize).1 =
      (if uin ≠ -1 then [("uin", Bson.int uin)] else []) ++
        (if status ≠ POST_STATUS_ANY then [("status", Bson.status status)] else []) := by
  by_cases h1 : uin = -1 <;> by_cases h2 : status = POST_STATUS_ANY <;>
    simp [GetPosts.query, M.set, h1, h2]

theorem Store.next_post_indexes (s : Store) : s.next.2.post_indexes = s.post_indexes := by
  rw [Store.next_snd]

theorem CheckMetadata.loop_post_indexes (metas : List Metadata) :
    ∀ s : Store, (CheckMetadata.loop metas s).2.post_indexes = s.post_indexes := by
  induction metas with
  | nil => intro s; rfl
  | cons meta rest ih =>
    intro s
    simp only [CheckMetadata.loop]
    split
    · exact Store.next_post_indexes s
    · split
      · split
        · exact (Store.next_post_indexes _).trans (Store.next_post_indexes s)
        · rw [ih]
          exact (Store.next_post_indexes _).trans (Store.next_post_indexes s)
      · rw [ih]
        exact Store.next_post_indexes s

theorem CheckMetadata_post_indexes (m : MongoDBManager) :
    (CheckMetadata m).2.Client.post_indexes = m.Client.post_indexes := by
  simp only [CheckMetadata]
  split
  · exact Store.next_post_indexes _
  · rename_i s0 hc
    have h0 : s0.post_indexes = m.Client.post_indexes := by
      simp only [CreateCollection] at hc
      split at hc
      · exact absurd hc (by simp)
      · split at hc
        · exact absurd hc (by simp)
        · rw [← Except.ok.inj hc]
          exact Store.next_post_indexes _
    exact (CheckMetadata.loop_post_indexes _ _).trans h0

theorem getElem?_split {α : Type} (l : List α) :
    ∀ (i : Nat) (g : α), l[i]? = some g →
      ∃ pre post, l = pre ++ g :: post ∧ ∀ g', l.set i g' = pre ++ g' :: post := by
  induction l with
  | nil => intro i g h; simp at h
  | cons a rest ih =>
    intro i g h
    cases i with
    | zero =>
      simp at h
      subst h
      exact ⟨[], rest, rfl, fun g' => rfl⟩
    | succ j =>
      simp at h
      obtain ⟨pre, post, hl, hset⟩ := ih j g h
      refine ⟨a :: pre, post, by rw [hl]; rfl, fun g' => ?_⟩
      simp [List.set, hset]

theorem Goroutine.consistent_of_not_inCritical (k k' : Nat) (g : Goroutine)
    (hc : g.inCritical = false) (h : g.consistent k) : g.consistent k' := by
  unfold Goroutine.consistent at h ⊢
  unfold Goroutine.inCritical at hc
  cases hpc : g.pc <;> simp_all

theorem countP_eq_zero_mem {α : Type} (p : α → Bool) (l : List α) (h : l.countP p = 0) :
    ∀ x ∈ l, p x = false := by
  intro x hx
  by_contra hp
  have : 0 < l.countP p := List.countP_pos_iff.2 ⟨x, hx, by simpa using hp⟩
  omega

theorem Store.outcome_faults_drop (s s' : Store) (n : Nat) (hf : s'.faults = s.faults.drop n)
    (hok : ∀ i, s.outcome i = none) : ∀ i, s'.outcome i = none := by
  intro i
  have h := hok (n + i)
  simp only [Store.outcome] at h ⊢
  rw [hf, getD_drop_none]
  exact h

theorem countP_mid {α : Type} (p : α → Bool) (pre post : List α) (x : α) :
    (pre ++ x :: post).countP p =
      pre.countP p + post.countP p + (if p x = true then 1 else 0) := by
  simp only [List.countP_append, List.countP_cons]
  omega

theorem Goroutine.step_atLock (m m' : MongoDBManager) (g g' : Goroutine)
    (hpc : g.pc = AddPostPc.atLock) (hs : g.step m = some (m', g')) :
    m.PostLock.locked = false ∧ m'.PostLock.locked = true ∧ m'.Client = m.Client ∧
      g'.pc = AddPostPc.atGetMaxPostID := by
  unfold Goroutine.step at hs
  rw [hpc] at hs
  simp only [Mutex.Lock] at hs
  cases hl : m.PostLock.locked with
  | true => rw [hl] at hs; simp at hs
  | false =>
    rw [hl] at hs
    simp only [Bool.false_eq_true, if_false, Option.map_some', Option.some.injEq,
      Prod.mk.injEq] at hs
    obtain ⟨rfl, rfl⟩ := hs
    exact ⟨rfl, rfl, rfl, rfl⟩

theorem Goroutine.step_atGetMaxPostID (m m' : MongoDBManager) (g g' : Goroutine)
    (hpc : g.pc = AddPostPc.atGetMaxPostID) (hok : m.Client.outcome 0 = none)
    (hs : g.step m = some (m', g')) :
    m'.PostLock = m.PostLock ∧ m'.Client.post = m.Client.post ∧
      m'.Client.faults = m.Client.faults.drop 1 ∧
      g'.pc = AddPostPc.atInsertOne (wrapInt (currentMaxID m.Client.post + 1)) ∧
      g'.post.ID = wrapInt (currentMaxID m.Client.post + 1) := by
  unfold Goroutine.step at hs
  rw [hpc] at hs
  simp only [GetMaxPostID_ok m hok, Option.some.injEq, Prod.mk.injEq] at hs
  obtain ⟨rfl, rfl⟩ := hs
  exact ⟨rfl, rfl, rfl, rfl, rfl⟩

theorem Goroutine.step_atInsertOne (m m' : MongoDBManager) (g g' : Goroutine) (id : Int)
    (hpc : g.pc = AddPostPc.atInsertOne id) (hok : m.Client.outcome 0 = none)
    (hs : g.step m = some (m', g')) :
    m'.PostLock = m.PostLock ∧ m'.Client.post = m.Client.post ++ [g.post] ∧
      m'.Client.faults = m.Client.faults.drop 1 ∧ g'.pc = AddPostPc.atAddPostLog id := by
  unfold Goroutine.step at hs
  rw [hpc] at hs
  simp only [Store.next_fst, Store.next_snd, hok, InsertOne, Option.some.injEq,
    Prod.mk.injEq] at hs
  obtain ⟨rfl, rfl⟩ := hs
  exact ⟨rfl, rfl, rfl, rfl⟩

theorem Goroutine.step_atAddPostLog (m m' : MongoDBManager) (g g' : Goroutine) (id : Int)
    (hpc : g.pc = AddPostPc.atAddPostLog id) (hok : m.Client.outcome 0 = none)
    (hs : g.step m = some (m', g')) :
    m'.PostLock = m.PostLock ∧ m'.Client.post = m.Client.post ∧
      m'.Client.faults = m.Client.faults.drop 1 ∧
      g'.pc = AddPostPc.atUnlock (id, none) := by
  unfold Goroutine.step at hs
  rw [hpc] at hs
  simp only [AddPostLog, Store.next_fst, Store.next_snd, hok, InsertOne, Option.some.injEq,
    Prod.mk.injEq] at hs
  obtain ⟨rfl, rfl⟩ := hs
  exact ⟨rfl, rfl, rfl, rfl⟩

theorem Goroutine.step_atUnlock (m m' : MongoDBManager) (g g' : Goroutine)
    (r : Int × GoError) (hpc : g.pc = AddPostPc.atUnlock r)
    (hs : g.step m = some (m', g')) :
    m.PostLock.locked = true ∧ m'.PostLock.locked = false ∧ m'.Client = m.Client ∧
      g'.pc = AddPostPc.returned r := by
  unfold Goroutine.step at hs
  rw [hpc] at hs
  simp only [Mutex.Unlock] at hs
  cases hl : m.PostLock.locked with
  | false => rw [hl] at hs; simp at hs
  | true =>
    rw [hl] at hs
    simp only [if_true, Option.map_some', Option.some.injEq, Prod.mk.injEq] at hs
    obtain ⟨rfl, rfl⟩ := hs
    exact ⟨rfl, rfl, rfl, rfl⟩

theorem Goroutine.step_returned (m : MongoDBManager) (g : Goroutine) (r : Int × GoError)
    (hpc : g.pc = AddPostPc.returned r) : g.step m = none := by
  unfold Goroutine.step
  rw [hpc]

theorem filterMap_mid {α β : Type} (f : α → Option β) (pre post : List α) (x : α) :
    (pre ++ x :: post).filterMap f = pre.filterMap f ++ ((f x).toList ++ post.filterMap f) := by
  rw [List.filterMap_append, List.filterMap_cons]
  cases f x <;> rfl

theorem Config.step_some (c c' : Config) (i : Nat) (hs : c.step i = some c') :
    ∃ g m' g' pre post, c.goroutines = pre ++ g :: post ∧ g.step c.m = some (m', g') ∧
      c' = ⟨m', pre ++ g' :: post⟩ := by
  unfold Config.step at hs
  cases hget : c.goroutines[i]? with
  | none => rw [hget] at hs; exact absurd hs (by simp)
  | some g =>
    rw [hget] at hs
    simp only at hs
    obtain ⟨pre, post, hl, hset⟩ := getElem?_split c.goroutines i g hget
    cases hstep : g.step c.m with
    | none => rw [hstep] at hs; exact absurd hs (by simp)
    | some r =>
      rw [hstep] at hs
      simp only [Option.map_some', Option.some.injEq] at hs
      rw [hset] at hs
      exact ⟨g, r.1, r.2, pre, post, hl, hstep, hs.symm⟩

theorem Config.Inv.posts_lt (N steps : Nat) (m : MongoDBManager) (pre post : List Goroutine)
    (g : Goroutine) (h : Config.Inv N steps ⟨m, pre ++ g :: post⟩)
    (hg : g.assigned = none) : m.Client.post.length < N := by
  have hlen := h.assigned.length_eq
  have hN := h.len
  rw [length_idsUpTo] at hlen
  simp only [List.filterMap_append, List.filterMap_cons, hg, List.length_append] at hlen
  simp only [List.length_append, List.length_cons] at hN
  have h1 := List.length_filterMap_le Goroutine.assigned pre
  have h2 := List.length_filterMap_le Goroutine.assigned post
  omega

theorem Config.Inv.others_not_critical (N steps : Nat) (m : MongoDBManager)
    (pre post : List Goroutine) (g : Goroutine) (h : Config.Inv N steps ⟨m, pre ++ g :: post⟩)
    (hg : g.inCritical = true) :
    m.PostLock.locked = true ∧ pre.countP Goroutine.inCritical = 0 ∧
      post.countP Goroutine.inCritical = 0 := by
  have hc := h.crit
  simp only [countP_mid, hg, if_true] at hc
  cases hl : m.PostLock.locked with
  | false => rw [hl] at hc; simp at hc
  | true =>
    rw [hl] at hc
    simp only [if_true] at hc
    exact ⟨rfl, by omega, by omega⟩

theorem Config.Inv.step (N steps : Nat) (c c' : Config) (i : Nat) (hN : (N : Int) ≤ MAX_INT)
    (h : Config.Inv N steps c) (hs : c.step i = some c') : Config.Inv N (steps + 1) c' := by
  obtain ⟨g, m', g', pre, post, hl, hstep, rfl⟩ := Config.step_some c c' i hs
  obtain ⟨m, gs⟩ := c
  simp only at hl hstep
  subst hl
  have hmem : ∀ x ∈ pre ++ g' :: post, x = g' ∨ x ∈ pre ++ post := by
    intro x hx
    simp only [List.mem_append, List.mem_cons] at hx ⊢
    tauto
  have hcons_old : ∀ x ∈ pre ++ post, x.consistent m.Client.post.length := by
    intro x hx
    apply h.consistent
    simp only [List.mem_append, List.mem_cons] at hx ⊢
    tauto
  have hgcons : g.consistent m.Client.post.length := h.consistent g (by simp)
  have hok : ∀ i, m.Client.outcome i = none := h.ok
  have hids : m.Client.post.map (fun p => p.ID) = idsUpTo m.Client.post.length := h.ids
  have hprog : ((pre ++ g :: post).map Goroutine.progress).sum = steps := h.progress
  have hlen : (pre ++ g :: post).length = N := h.len
  have hcrit : (pre ++ g :: post).countP Goroutine.inCritical =
      if m.PostLock.locked then 1 else 0 := h.crit
  have hass : ((pre ++ g :: post).filterMap Goroutine.assigned).Perm
      (idsUpTo m.Client.post.length) := h.assigned
  simp only [List.map_append, List.map_cons, List.sum_append, List.sum_cons] at hprog
  simp only [countP_mid] at hcrit
  simp only [filterMap_mid] at hass
  have hlen' : (pre ++ g' :: post).length = N := by
    simp only [List.length_append, List.length_cons] at hlen ⊢
    exact hlen
  cases hpc : g.pc with
  | atLock =>
    obtain ⟨hl, hl', hC, hpc'⟩ := Goroutine.step_atLock m m' g g' hpc hstep
    have hga : g.assigned = none := by simp [Goroutine.assigned, hpc]
    have hga' : g'.assigned = none := by simp [Goroutine.assigned, hpc']
    refine ⟨?_, ?_, ?_, ?_, ?_, hlen', ?_⟩
    · rw [hC]; exact hok
    · rw [hC]; exact hids
    · simp only [filterMap_mid, hga']
      rw [hga] at hass
      rw [hC]; exact hass
    · simp only [countP_mid, Goroutine.inCritical, hpc, hpc', hl, hl'] at hcrit ⊢
      simp only [Bool.false_eq_true, eq_self_iff_true, if_true, if_false] at hcrit ⊢
      omega
    · intro x hx
      rcases hmem x hx with rfl | hx
      · simp [Goroutine.consistent, hpc']
      · rw [hC]; exact hcons_old x hx
    · simp only [List.map_append, List.map_cons, List.sum_append, List.sum_cons,
        Goroutine.progress, hpc, hpc'] at hprog ⊢
      omega
  | atGetMaxPostID =>
    obtain ⟨hL, hP, hF, hpc', hid'⟩ :=
      Goroutine.step_atGetMaxPostID m m' g g' hpc (hok 0) hstep
    have hga : g.assigned = none := by simp [Goroutine.assigned, hpc]
    have hga' : g'.assigned = none := by simp [Goroutine.assigned, hpc']
    have hlt : m.Client.post.length < N := Config.Inv.posts_lt N steps m pre post g h hga
    have hw : wrapInt (currentMaxID m.Client.post + 1) = (m.Client.post.length : Int) + 1 := by
      rw [currentMaxID_of_ids _ _ hids]
      apply wrapInt_of_inRange
      · unfold MIN_INT; norm_num; omega
      · omega
    refine ⟨Store.outcome_faults_drop m.Client m'.Client 1 hF hok, ?_, ?_, ?_, ?_, hlen', ?_⟩
    · rw [hP]; exact hids
    · simp only [filterMap_mid, hga']
      rw [hga] at hass
      rw [hP]; exact hass
    · simp only [countP_mid, Goroutine.inCritical, hpc, hpc', hL] at hcrit ⊢
      exact hcrit
    · intro x hx
      rcases hmem x hx with rfl | hx
      · unfold Goroutine.consistent
        rw [hpc', hP]
        exact ⟨hw, hid'⟩
      · rw [hP]; exact hcons_old x hx
    · simp only [List.map_append, List.map_cons, List.sum_append, List.sum_cons,
        Goroutine.progress, hpc, hpc'] at hprog ⊢
      omega
  | atInsertOne id =>
    obtain ⟨hL, hP, hF, hpc'⟩ := Goroutine.step_atInsertOne m m' g g' id hpc (hok 0) hstep
    have hga : g.assigned = none := by simp [Goroutine.assigned, hpc]
    have hga' : g'.assigned = some id := by simp [Goroutine.assigned, hpc']
    have hgc : g.inCritical = true := by simp [Goroutine.inCritical, hpc]
    obtain ⟨hid, hpid⟩ : id = (m.Client.post.length : Int) + 1 ∧ g.post.ID = id := by
      unfold Goroutine.consistent at hgcons
      rw [hpc] at hgcons
      exact hgcons
    have hk : m'.Client.post.length = m.Client.post.length + 1 := by
      rw [hP, List.length_append, List.length_singleton]
    obtain ⟨-, hpre, hpost⟩ := Config.Inv.others_not_critical N steps m pre post g h hgc
    refine ⟨Store.outcome_faults_drop m.Client m'.Client 1 hF hok, ?_, ?_, ?_, ?_, hlen', ?_⟩
    · rw [hk, hP, List.map_append, hids, idsUpTo_succ, List.map_singleton, hpid, hid]
    · simp only [filterMap_mid, hga']
      rw [hga] at hass
      rw [hk, idsUpTo_succ, ← hid]
      have h1 : (List.filterMap Goroutine.assigned pre ++
          ((some id).toList ++ List.filterMap Goroutine.assigned post)).Perm
          (id :: (List.filterMap Goroutine.assigned pre ++
            List.filterMap Goroutine.assigned post)) := List.perm_middle
      have h2 : (id :: (List.filterMap Goroutine.assigned pre ++
            List.filterMap Goroutine.assigned post)).Perm
          (id :: idsUpTo m.Client.post.length) := List.Perm.cons id hass
      exact (h1.trans h2).trans (List.perm_append_singleton id _).symm
    · simp only [countP_mid, Goroutine.inCritical, hpc, hpc', hL] at hcrit ⊢
      exact hcrit
    · intro x hx
      rcases hmem x hx with rfl | hx
      · simp [Goroutine.consistent, hpc']
      · have hxc : x.inCritical = false := by
          rcases List.mem_append.1 hx with hx' | hx'
          · exact countP_eq_zero_mem _ pre hpre x hx'
          · exact countP_eq_zero_mem _ post hpost x hx'
        exact Goroutine.consistent_of_not_inCritical _ _ x hxc (hcons_old x hx)
    · simp only [List.map_append, List.map_cons, List.sum_append, List.sum_cons,
        Goroutine.progress, hpc, hpc'] at hprog ⊢
      omega
  | atAddPostLog id =>
    obtain ⟨hL, hP, hF, hpc'⟩ := Goroutine.step_atAddPostLog m m' g g' id hpc (hok 0) hstep
    have hga : g.assigned = some id := by simp [Goroutine.assigned, hpc]
    have hga' : g'.assigned = some id := by simp [Goroutine.assigned, hpc']
    refine ⟨Store.outcome_faults_drop m.Client m'.Client 1 hF hok, ?_, ?_, ?_, ?_, hlen', ?_⟩
    · rw [hP]; exact hids
    · simp only [filterMap_mid, hga']
      rw [hga] at hass
      rw [hP]; exact hass
    · simp only [countP_mid, Goroutine.inCritical, hpc, hpc', hL] at hcrit ⊢
      exact hcrit
    · intro x hx
      rcases hmem x hx with rfl | hx
      · simp [Goroutine.consistent, hpc']
      · rw [hP]; exact hcons_old x hx
    · simp only [List.map_append, List.map_cons, List.sum_append, List.sum_cons,
        Goroutine.progress, hpc, hpc'] at hprog ⊢
      omega
  | atUnlock r =>
    obtain ⟨hl, hl', hC, hpc'⟩ := Goroutine.step_atUnlock m m' g g' r hpc hstep
    have hga : g.assigned = some r.1 := by simp [Goroutine.assigned, hpc]
    have hga' : g'.assigned = some r.1 := by simp [Goroutine.assigned, hpc']
    have hr : r.2 = none := by
      unfold Goroutine.consistent at hgcons
      rw [hpc] at hgcons
      exact hgcons
    refine ⟨?_, ?_, ?_, ?_, ?_, hlen', ?_⟩
    · rw [hC]; exact hok
    · rw [hC]; exact hids
    · simp only [filterMap_mid, hga']
      rw [hga] at hass
      rw [hC]; exact hass
    · simp only [countP_mid, Goroutine.inCritical, hpc, hpc', hl, hl'] at hcrit ⊢
      simp only [Bool.false_eq_true, eq_self_iff_true, if_true, if_false] at hcrit ⊢
      omega
    · intro x hx
      rcases hmem x hx with rfl | hx
      · unfold Goroutine.consistent
        rw [hpc']
        exact hr
      · rw [hC]; exact hcons_old x hx
    · simp only [List.map_append, List.map_cons, List.sum_append, List.sum_cons,
        Goroutine.progress, hpc, hpc'] at hprog ⊢
      omega
  | returned r =>
    rw [Goroutine.step_returned m g r hpc] at hstep
    exact absurd hstep (by simp)

theorem Config.Inv.run (N : Nat) (hN : (N : Int) ≤ MAX_INT) (schedule : List Nat) :
    ∀ (steps : Nat) (c c' : Config), Config.Inv N steps c → c.run schedule = some c' →
      Config.Inv N (steps + schedule.length) c' := by
  induction schedule with
  | nil =>
    intro steps c c' h hr
    simp only [Config.run, Option.some.injEq] at hr
    subst hr
    exact h
  | cons i rest ih =>
    intro steps c c' h hr
    simp only [Config.run] at hr
    cases hs : c.step i with
    | none => rw [hs] at hr; exact absurd hr (by simp)
    | some c1 =>
      rw [hs] at hr
      have := ih (steps + 1) c1 c' (Config.Inv.step N steps c c1 i hN h hs) hr
      rw [List.length_cons]
      rw [show steps + (rest.length + 1) = steps + 1 + rest.length by omega]
      exact this

theorem Store.next_created (s : Store) : s.next.2.created = s.created := by
  rw [Store.next_snd]

theorem Store.next_metadata (s : Store) : s.next.2.metadata = s.metadata := by
  rw [Store.next_snd]

theorem CheckMetadata.loop_created (metas : List Metadata) :
    ∀ s : Store, (CheckMetadata.loop metas s).2.created = s.created := by
  induction metas with
  | nil => intro s; rfl
  | cons meta rest ih =>
    intro s
    simp only [CheckMetadata.loop]
    split
    · exact Store.next_created s
    · split
      · split
        · exact (Store.next_created _).trans (Store.next_created s)
        · rw [ih]
          exact (Store.next_created _).trans (Store.next_created s)
      · rw [ih]
        exact Store.next_created s

theorem CheckMetadata_created (m : MongoDBManager) (h : (CheckMetadata m).1 = none) :
    METADATA_COLLECTION ∈ (CheckMetadata m).2.Client.created := by
  simp only [CheckMetadata] at h ⊢
  split at h
  · exact absurd h (by simp)
  · rename_i s0 hc
    have h0 : METADATA_COLLECTION ∈ s0.created := by
      simp only [CreateCollection] at hc
      split at hc
      · exact absurd hc (by simp)
      · split at hc
        · exact absurd hc (by simp)
        · rw [← Except.ok.inj hc]
          simp
    show METADATA_COLLECTION ∈ (CheckMetadata.loop PresetMetadata s0).2.created
    rw [CheckMetadata.loop_created]
    exact h0

theorem CheckMetadata_existing (m : MongoDBManager)
    (h : METADATA_COLLECTION ∈ m.Client.created) :
    (∃ err, (CheckMetadata m).1 = some err) ∧
      (CheckMetadata m).2.Client.metadata = m.Client.metadata := by
  have hex : m.Client.next.2.collectionExists METADATA_COLLECTION = true := by
    simp [Store.collectionExists, Store.next_created, h]
  simp only [CheckMetadata, CreateCollection, hex]
  cases m.Client.next.1 with
  | some c => exact ⟨⟨_, rfl⟩, Store.next_metadata _⟩
  | none => exact ⟨⟨_, rfl⟩, Store.next_metadata _⟩

/-! ## Claims -/

/-- C1: from an empty post collection and a free lock, with every driver call going
through, the k-th of N successive `AddPost` calls (N within the range of Go's `int`,
the type of the returned id) returns `(k, nil)`, stores its post under the id `k` and
appends the creation log entry of `k`; after the N calls the ids in the post collection
are `1, ..., N` in this order, without duplicates and without gaps. -/
theorem AddPost_sequence_ids (m : MongoDBManager) (calls : List (PostPO × Int))
    (hempty : m.Client.post = []) (hl : m.PostLock.locked = false)
    (hok : ∀ i, m.Client.outcome i = none) (hN : (calls.length : Int) ≤ MAX_INT) :
    ∃ m', addPosts m calls =
        some ((List.range calls.length).map
          (fun (k : Nat) => ((k : Int) + 1, (none : GoError))), m') ∧
      m'.Client.post = (calls.enumFrom 0).map stampPost ∧
      m'.Client.post_log = m.Client.post_log ++ (calls.enumFrom 0).map stampLog ∧
      m'.Client.post.map (fun p => p.ID) = idsUpTo calls.length ∧
      (m'.Client.post.map (fun p => p.ID)).Nodup ∧
      ∀ i : Int, i ∈ m'.Client.post.map (fun p => p.ID) ↔ 1 ≤ i ∧ i ≤ calls.length := by
  obtain ⟨m', hrun, hposts, hlogs, -⟩ := addPosts_of_ids calls m 0 hl hok
    (by rw [hempty]; rfl) (by simpa using hN)
  have hids : m'.Client.post.map (fun p => p.ID) = idsUpTo calls.length := by
    rw [hposts, hempty, List.nil_append, List.map_map]
    unfold idsUpTo
    apply List.ext_getElem
    · simp
    · intro i h1 h2
      simp [stampPost, List.getElem_enumFrom]
  refine ⟨m', ?_, ?_, hlogs, hids, ?_, ?_⟩
  · simpa using hrun
  · rw [hposts, hempty, List.nil_append]
  · rw [hids]; exact nodup_idsUpTo _
  · intro i; rw [hids]; exact mem_idsUpTo _ i

/-- Instance of C1: on the empty store, `AddPost` of a post of uin 100 returns
`(1, nil)`, then `AddPost` of a post of uin 200 returns `(2, nil)`. -/
theorem AddPost_sequence_ids_witness :
    ∃ m', addPosts {} [(⟨0, 100, PostStatus.PENDING_APPROVAL, 5⟩, 5),
                        (⟨0, 200, PostStatus.PENDING_APPROVAL, 6⟩, 6)] =
        some ((List.range 2).map (fun (k : Nat) => ((k : Int) + 1, (none : GoError))), m') ∧
      m'.Client.post = ([((⟨0, 100, PostStatus.PENDING_APPROVAL, 5⟩ : PostPO), (5 : Int)),
                        (⟨0, 200, PostStatus.PENDING_APPROVAL, 6⟩, 6)].enumFrom 0).map stampPost ∧
      m'.Client.post_log = [] ++
        ([((⟨0, 100, PostStatus.PENDING_APPROVAL, 5⟩ : PostPO), (5 : Int)),
          (⟨0, 200, PostStatus.PENDING_APPROVAL, 6⟩, 6)].enumFrom 0).map stampLog ∧
      m'.Client.post.map (fun p => p.ID) = idsUpTo 2 ∧
      (m'.Client.post.map (fun p => p.ID)).Nodup ∧
      ∀ i : Int, i ∈ m'.Client.post.map (fun p => p.ID) ↔ 1 ≤ i ∧ i ≤ (2 : Nat) :=
  AddPost_sequence_ids {} [(⟨0, 100, PostStatus.PENDING_APPROVAL, 5⟩, 5),
      (⟨0, 200, PostStatus.PENDING_APPROVAL, 6⟩, 6)] rfl rfl (fun _ => rfl) (by decide)

/-- C3: `GetMaxPostID` returns `(0, nil)` on an empty post collection (the no-documents
outcome of the query is not an error); on a non-empty collection it returns `(m, nil)`
where `m` is the greatest `id` among the posts; when the query fails otherwise, it
returns `(0, err)` with the error of the query. -/
theorem GetMaxPostID_returns (m : MongoDBManager) :
    (m.Client.outcome 0 = none → m.Client.post = [] → (GetMaxPostID m).1 = (0, none)) ∧
    (m.Client.outcome 0 = none → m.Client.post ≠ [] →
      ∃ p ∈ m.Client.post, (GetMaxPostID m).1 = (p.ID, none) ∧
        ∀ q ∈ m.Client.post, q.ID ≤ p.ID) ∧
    (∀ c, m.Client.outcome 0 = some c →
      (GetMaxPostID m).1 = (0, some (StoreErr.fault c))) := by
  refine ⟨fun h he => ?_, fun h hne => ?_, fun c h => ?_⟩
  · rw [GetMaxPostID_ok m h, he, currentMaxID_nil]
  · obtain ⟨⟨p, hp, hpe⟩, hmax⟩ := currentMaxID_spec m.Client.post hne
    refine ⟨p, hp, ?_, fun q hq => hpe ▸ hmax q hq⟩
    rw [GetMaxPostID_ok m h, hpe]
  · rw [GetMaxPostID_fault m c h]

/-- Instance of C3: an empty collection, a collection with the ids 3, 9, -2, and a
failing query. -/
theorem GetMaxPostID_returns_witness :
    (GetMaxPostID {}).1 = (0, none) ∧
    (∃ p ∈ ([⟨3, 1, PostStatus.ANY, 0⟩, ⟨9, 1, PostStatus.ANY, 0⟩,
              ⟨-2, 1, PostStatus.ANY, 0⟩] : List PostPO),
      (GetMaxPostID { Client := { post := [⟨3, 1, PostStatus.ANY, 0⟩,
          ⟨9, 1, PostStatus.ANY, 0⟩, ⟨-2, 1, PostStatus.ANY, 0⟩] } }).1 = (p.ID, none) ∧
      ∀ q ∈ ([⟨3, 1, PostStatus.ANY, 0⟩, ⟨9, 1, PostStatus.ANY, 0⟩,
              ⟨-2, 1, PostStatus.ANY, 0⟩] : List PostPO), q.ID ≤ p.ID) ∧
    (GetMaxPostID { Client := { faults := [some 7] } }).1 = (0, some (StoreErr.fault 7)) :=
  ⟨(GetMaxPostID_returns {}).1 (by decide) (by decide),
   (GetMaxPostID_returns { Client := { post := [⟨3, 1, PostStatus.ANY, 0⟩,
      ⟨9, 1, PostStatus.ANY, 0⟩, ⟨-2, 1, PostStatus.ANY, 0⟩] } }).2.1 (by decide) (by decide),
   (GetMaxPostID_returns { Client := { faults := [some 7] } }).2.2 7 (by decide)⟩

/-- C4: in a state reachable from the empty store by `AddPost` calls (holding fewer
posts than the greatest Go `int`), after an `AddPost` that returns `(id, nil)` exactly
one entry of `post_log` has `post_id = id`, and that entry has `old_status = ANY`
and `new_status = PENDING_APPROVAL`. -/
theorem AddPost_logs_once (m m' : MongoDBManager) (post post' : PostPO) (now id : Int)
    (hr : Reachable m) (hlen : (m.Client.post.length : Int) < MAX_INT)
    (hs : AddPost m post now = some ((id, none), post', m')) :
    (m'.Client.post_log.filter (fun l => decide (l.PostID = id))).length = 1 ∧
    ∀ l ∈ m'.Client.post_log, l.PostID = id →
      l.OldStat = POST_STATUS_ANY ∧ l.NewStat = POST_STATUS_PENDING_APPROVAL := by
  obtain ⟨hids, hlogs⟩ := Reachable.ids m hr (le_of_lt hlen)
  have hw : wrapInt (currentMaxID m.Client.post + 1) = (m.Client.post.length : Int) + 1 := by
    rw [currentMaxID_of_ids _ _ hids]
    apply wrapInt_of_inRange
    · unfold MIN_INT; norm_num; omega
    · omega
  rcases AddPost_effect m m' post post' now (id, none) hs with
    ⟨-, -, hne⟩ | ⟨-, -, hne⟩ | ⟨-, hg, hid⟩
  · exact absurd rfl hne
  · exact absurd rfl hne
  · have hid' : id = (m.Client.post.length : Int) + 1 := by
      rw [← hw]; exact (Prod.mk.inj hid).1
    have hold : ∀ l ∈ m.Client.post_log, l.PostID ≠ id := by
      intro l hl
      have := hlogs l hl
      omega
    rw [hg, hw, ← hid']
    constructor
    · rw [List.filter_append, List.length_append]
      have : m.Client.post_log.filter (fun l => decide (l.PostID = id)) = [] := by
        rw [List.filter_eq_nil_iff]
        intro l hl
        simpa using hold l hl
      rw [this]
      simp [creationLog]
    · intro l hl hlid
      rcases List.mem_append.1 hl with hl | hl
      · exact absurd hlid (hold l hl)
      · rw [List.mem_singleton.1 hl]
        exact ⟨rfl, rfl⟩

/-- Instance of C4: the second `AddPost` on a store whose first `AddPost` lost its log
entry. -/
theorem AddPost_logs_once_witness :
    ∃ post' m', AddPost { Client := { post := [⟨1, 100, PostStatus.PENDING_APPROVAL, 5⟩] },
                          PostLock := lockedAndReleased {} }
        ⟨0, 200, PostStatus.PENDING_APPROVAL, 6⟩ 8 = some ((2, none), post', m') ∧
      (m'.Client.post_log.filter (fun l => decide (l.PostID = 2))).length = 1 ∧
      ∀ l ∈ m'.Client.post_log, l.PostID = 2 →
        l.OldStat = POST_STATUS_ANY ∧ l.NewStat = POST_STATUS_PENDING_APPROVAL :=
  ⟨_, _, rfl,
   AddPost_logs_once { Client := { post := [⟨1, 100, PostStatus.PENDING_APPROVAL, 5⟩] },
                       PostLock := lockedAndReleased {} } _
    ⟨0, 200, PostStatus.PENDING_APPROVAL, 6⟩ _ 8 2
    (Reachable.addPost { Client := { faults := [none, none, some 4] } }
      ⟨0, 100, PostStatus.PENDING_APPROVAL, 5⟩ 7 (-1, some (StoreErr.fault 4))
      ⟨1, 100, PostStatus.PENDING_APPROVAL, 5⟩ _
      (Reachable.empty _ rfl rfl) (by decide))
    (by decide) rfl⟩

/-- C5 as amended: when the post has been inserted and the append of its log entry
fails, the post stays in the collection `post` under the id it was given (maximum plus
one, no rollback) and `post_log` is what it was before the call; `AddPost` returns `-1`
with the error of the append unchanged, and the given id is in the `ID` field of the
caller's post, written by `post.ID = id` before the insertion, so that the caller can
identify the post that needs reconciliation. -/
theorem AddPost_log_failure (m : MongoDBManager) (post : PostPO) (now : Int) (c : Nat)
    (hl : m.PostLock.locked = false) (h1 : m.Client.outcome 0 = none)
    (h2 : m.Client.outcome 1 = none) (h3 : m.Client.outcome 2 = some c) :
    ∃ post' m', AddPost m post now = some ((-1, some (StoreErr.fault c)), post', m') ∧
      post' = { post with ID := wrapInt (currentMaxID m.Client.post + 1) } ∧
      m'.Client.post = m.Client.post ++ [post'] ∧
      m'.Client.post_log = m.Client.post_log :=
  ⟨_, _, AddPost_log_fault m post now c hl h1 h2 h3, rfl, rfl, rfl⟩

/-- Instance of the amended C5 on the empty store. -/
theorem AddPost_log_failure_witness :
    ∃ post' m', AddPost { Client := { faults := [none, none, some 4] } }
        ⟨0, 100, PostStatus.PENDING_APPROVAL, 5⟩ 7 =
          some ((-1, some (StoreErr.fault 4)), post', m') ∧
      post' = { (⟨0, 100, PostStatus.PENDING_APPROVAL, 5⟩ : PostPO) with
        ID := wrapInt (currentMaxID [] + 1) } ∧
      m'.Client.post = [] ++ [post'] ∧
      m'.Client.post_log = [] :=
  AddPost_log_failure { Client := { faults := [none, none, some 4] } } _ 7 4
    (by decide) (by decide) (by decide) (by decide)

/-- C5 fails as stated: on two stores the append of the log entry fails after the post
was inserted, under the ids 1 and 6; both calls return the same values, `-1` and the
error of the append, so the returned error does not carry the assigned id, which is
found in the caller's post only. -/
theorem AddPost_result_hides_id :
    (AddPost { Client := { faults := [none, none, some 4] } }
        ⟨0, 100, PostStatus.PENDING_APPROVAL, 5⟩ 7).map
          (fun r => (r.1, r.2.1.ID, r.2.2.Client.post)) =
      some ((-1, some (StoreErr.fault 4)), 1, [⟨1, 100, PostStatus.PENDING_APPROVAL, 5⟩]) ∧
    (AddPost { Client := { post := [⟨5, 100, PostStatus.PENDING_APPROVAL, 5⟩],
                           faults := [none, none, some 4] } }
        ⟨0, 100, PostStatus.PENDING_APPROVAL, 5⟩ 7).map
          (fun r => (r.1, r.2.1.ID, r.2.2.Client.post)) =
      some ((-1, some (StoreErr.fault 4)), 6,
        [⟨5, 100, PostStatus.PENDING_APPROVAL, 5⟩, ⟨6, 100, PostStatus.PENDING_APPROVAL, 5⟩]) := by
  constructor <;> decide

/-- C6: when `AddPost` fails at the max-id query or at the insertion of the post, it
returns `-1` with the error of the failed call unchanged, and the collections `post`
and `post_log` are what they were before the call. -/
theorem AddPost_early_failure (m : MongoDBManager) (post : PostPO) (now : Int) (c : Nat)
    (hl : m.PostLock.locked = false)
    (h : m.Client.outcome 0 = some c ∨
      (m.Client.outcome 0 = none ∧ m.Client.outcome 1 = some c)) :
    ∃ post' m', AddPost m post now = some ((-1, some (StoreErr.fault c)), post', m') ∧
      m'.Client.post = m.Client.post ∧ m'.Client.post_log = m.Client.post_log := by
  rcases h with h1 | ⟨h1, h2⟩
  · exact ⟨_, _, AddPost_getMax_fault m post now c hl h1, rfl, rfl⟩
  · exact ⟨_, _, AddPost_insert_fault m post now c hl h1 h2, rfl, rfl⟩

/-- Instance of C6: the insertion of the post fails on a store holding one post and
one log entry. -/
theorem AddPost_early_failure_witness :
    ∃ post' m', AddPost { Client := { post := [⟨1, 100, PostStatus.PENDING_APPROVAL, 5⟩],
                                      post_log := [creationLog 1 ⟨0, 100, PostStatus.ANY, 5⟩ 5],
                                      faults := [none, some 4] } }
        ⟨0, 200, PostStatus.PENDING_APPROVAL, 6⟩ 7 =
          some ((-1, some (StoreErr.fault 4)), post', m') ∧
      m'.Client.post = [⟨1, 100, PostStatus.PENDING_APPROVAL, 5⟩] ∧
      m'.Client.post_log = [creationLog 1 ⟨0, 100, PostStatus.ANY, 5⟩ 5] :=
  AddPost_early_failure _ _ 7 4 (by decide) (Or.inr ⟨by decide, by decide⟩)

set_option maxRecDepth 100000 in
/-- C7, on the code: on the empty database the first run of `CheckMetadata` returns
`nil` and leaves exactly one document per key of `PresetMetadata`; the second run
returns the error `NamespaceExists` of `CreateCollection` and reaches no key, where
the claim has it succeed. The loop alone, run a second time, returns `nil` and changes
nothing. On every database, a run that follows a run that returned `nil` returns an
error and leaves the metadata documents as they are. -/
theorem CheckMetadata_second_run_fails :
    ((CheckMetadata {}).1 = none ∧
      (∀ meta ∈ PresetMetadata, keyCount meta.Key (CheckMetadata {}).2.Client.metadata = 1) ∧
      (CheckMetadata (CheckMetadata {}).2).1 = some StoreErr.NamespaceExists ∧
      (CheckMetadata (CheckMetadata {}).2).2.Client.metadata =
        (CheckMetadata {}).2.Client.metadata ∧
      CheckMetadata.loop PresetMetadata (CheckMetadata {}).2.Client =
        (none, (CheckMetadata {}).2.Client)) ∧
    ∀ m : MongoDBManager, (CheckMetadata m).1 = none →
      (∃ err, (CheckMetadata (CheckMetadata m).2).1 = some err) ∧
        (CheckMetadata (CheckMetadata m).2).2.Client.metadata =
          (CheckMetadata m).2.Client.metadata :=
  ⟨by decide, fun m h => CheckMetadata_existing _ (CheckMetadata_created m h)⟩

/-- C8: for all arguments, the query of `GetPosts` has a filter made of `uin` exactly
when `uin != -1` and of `status` exactly when `status != POST_STATUS_ANY`, and of
nothing else; it sorts on `created_at` with the direction `timeOrder`, skips Go's
`(page-1)*pageSize` (the exact product whenever it fits an `int`) and limits to
`pageSize`. Hence, with the driver calls going through, `GetPosts(-1, ANY, -1, 1, 10)`
on a store of at least 10 posts, 15 for instance, returns 10 posts in descending
order of `created_at`, none of the other posts being newer than a returned one. -/
theorem GetPosts_query_and_newest (m : MongoDBManager) (uin : Int) (status : PostStatus)
    (timeOrder page pageSize : Int) :
    ((GetPosts.query uin status timeOrder page pageSize).1 =
      (if uin ≠ -1 then [("uin", Bson.int uin)] else []) ++
        (if status ≠ POST_STATUS_ANY then [("status", Bson.status status)] else [])) ∧
    (GetPosts.query uin status timeOrder page pageSize).2.sort =
      [("created_at", Bson.int timeOrder)] ∧
    (GetPosts.query uin status timeOrder page pageSize).2.skip =
      wrapInt (wrapInt (page - 1) * pageSize) ∧
    (MIN_INT ≤ page - 1 → (page - 1) * pageSize ≤ MAX_INT → MIN_INT ≤ (page - 1) * pageSize →
      page ≤ MAX_INT →
      (GetPosts.query uin status timeOrder page pageSize).2.skip = (page - 1) * pageSize) ∧
    (GetPosts.query uin status timeOrder page pageSize).2.limit = pageSize ∧
    (m.Client.outcome 0 = none → m.Client.outcome 1 = none →
      (GetPosts m uin status timeOrder page pageSize).1 =
        match runQuery m.Client.post (GetPosts.query uin status timeOrder page pageSize).1
            (GetPosts.query uin status timeOrder page pageSize).2 with
        | Except.ok posts => (posts, none)
        | Except.error err => ([], some err)) ∧
    (m.Client.outcome 0 = none → m.Client.outcome 1 = none → 10 ≤ m.Client.post.length →
      ∃ posts rest, (GetPosts m (-1) POST_STATUS_ANY (-1) 1 10).1 = (posts, none) ∧
        posts.length = 10 ∧
        posts.Sorted (fun a b => b.CreatedAt ≤ a.CreatedAt) ∧
        (posts ++ rest).Perm m.Client.post ∧
        ∀ p ∈ posts, ∀ q ∈ rest, q.CreatedAt ≤ p.CreatedAt) := by
  refine ⟨GetPosts.query_filter uin status timeOrder page pageSize, rfl, rfl, ?_, rfl, ?_, ?_⟩
  · intro h1 h2 h3 h4
    show wrapInt (wrapInt (page - 1) * pageSize) = (page - 1) * pageSize
    rw [wrapInt_of_inRange (page - 1) h1 (by omega), wrapInt_of_inRange _ h3 h2]
  · intro h0 h1
    simp [Store.outcome] at h0 h1
    simp only [GetPosts, Store.next_fst, Store.next_snd, Store.outcome, Find]
    cases hq : runQuery m.Client.post (GetPosts.query uin status timeOrder page pageSize).1
        (GetPosts.query uin status timeOrder page pageSize).2 with
    | error e => simp [h0, hq]
    | ok posts => simp [h0, h1, hq, CursorAll, getD_tail_none]
  · intro h0 h1 hlen
    simp [Store.outcome] at h0 h1
    have hsorted := List.sorted_insertionSort (descOn "created_at") m.Client.post
    have hperm := List.perm_insertionSort (descOn "created_at") m.Client.post
    have hrun : (GetPosts m (-1) POST_STATUS_ANY (-1) 1 10).1 =
        ((m.Client.post.insertionSort (descOn "created_at")).take 10, none) := by
      simp only [GetPosts, GetPosts_newest_query, Store.next_fst, Store.next_snd,
        Store.outcome, Find]
      simp only [List.getD_eq_getElem?_getD, h0]
      rw [runQuery_desc m.Client.post [] "created_at" 0 10 (le_refl 0) (by decide),
        filter_docMatches_nil]
      simp [CursorAll, getD_tail_none, h1, limitDocs]
    have hdesc : ∀ a b : PostPO, descOn "created_at" a b ↔ b.CreatedAt ≤ a.CreatedAt := by
      intro a b
      simp only [descOn, sortKey_created_at]
    have hsplit : (m.Client.post.insertionSort (descOn "created_at")).take 10 ++
        (m.Client.post.insertionSort (descOn "created_at")).drop 10 =
        m.Client.post.insertionSort (descOn "created_at") := List.take_append_drop _ _
    refine ⟨_, (m.Client.post.insertionSort (descOn "created_at")).drop 10, hrun, ?_, ?_, ?_, ?_⟩
    · rw [List.length_take, List.length_insertionSort]
      omega
    · have := List.Pairwise.sublist (List.take_sublist 10 _) hsorted
      exact List.Pairwise.imp (fun {a b} h => (hdesc a b).1 h) this
    · rw [hsplit]; exact hperm
    · intro p hp q hq
      rw [← hsplit] at hsorted
      exact (hdesc p q).1 ((List.pairwise_append.1 hsorted).2.2 p hp q hq)

/-- Instance of C8: page 3 of size 10 skips 20, and the first page of the newest posts
of a store of 15 posts. -/
theorem GetPosts_query_and_newest_witness :
    (GetPosts.query 5 (PostStatus.other 1) 1 3 10).2.skip = (3 - 1) * 10 ∧
    ∃ posts rest,
      (GetPosts { Client := { post := (List.range 15).map (fun (i : Nat) =>
          ⟨(i : Int) + 1, 1, PostStatus.PENDING_APPROVAL, ((i * 7 % 15 : Nat) : Int)⟩) } }
        (-1) POST_STATUS_ANY (-1) 1 10).1 = (posts, none) ∧
      posts.length = 10 ∧
      posts.Sorted (fun a b => b.CreatedAt ≤ a.CreatedAt) ∧
      (posts ++ rest).Perm ((List.range 15).map (fun (i : Nat) =>
          (⟨(i : Int) + 1, 1, PostStatus.PENDING_APPROVAL, ((i * 7 % 15 : Nat) : Int)⟩ :
            PostPO))) ∧
      ∀ p ∈ posts, ∀ q ∈ rest, q.CreatedAt ≤ p.CreatedAt :=
  ⟨(GetPosts_query_and_newest {} 5 (PostStatus.other 1) 1 3 10).2.2.2.1
      (by decide) (by decide) (by decide) (by decide),
   (GetPosts_query_and_newest
      { Client := { post := (List.range 15).map (fun (i : Nat) =>
          ⟨(i : Int) + 1, 1, PostStatus.PENDING_APPROVAL, ((i * 7 % 15 : Nat) : Int)⟩) } }
      (-1) POST_STATUS_ANY (-1) 1 10).2.2.2.2.2.2 rfl rfl (by simp)⟩

/-- C9: from a free `PostLock`, whatever the outcomes of the three driver calls,
`AddPost` returns, the lock is free on return, and the call has performed on the lock
exactly one `Lock` followed by exactly one `Unlock`. -/
theorem AddPost_releases_lock (m : MongoDBManager) (post : PostPO) (now : Int)
    (hl : m.PostLock.locked = false) :
    ∃ r post' m', AddPost m post now = some (r, post', m') ∧ m'.PostLock.locked = false ∧
      m'.PostLock.history = m.PostLock.history ++ [MutexOp.lock, MutexOp.unlock] := by
  cases h1 : m.Client.outcome 0 with
  | some c => exact ⟨_, _, _, AddPost_getMax_fault m post now c hl h1, rfl, rfl⟩
  | none =>
    cases h2 : m.Client.outcome 1 with
    | some c => exact ⟨_, _, _, AddPost_insert_fault m post now c hl h1 h2, rfl, rfl⟩
    | none =>
      cases h3 : m.Client.outcome 2 with
      | some c => exact ⟨_, _, _, AddPost_log_fault m post now c hl h1 h2 h3, rfl, rfl⟩
      | none => exact ⟨_, _, _, AddPost_ok m post now hl h1 h2 h3, rfl, rfl⟩

/-- Instance of C9: the append of the log entry fails. -/
theorem AddPost_releases_lock_witness :
    ∃ r post' m', AddPost { Client := { faults := [none, none, some 4] } }
        ⟨0, 100, PostStatus.PENDING_APPROVAL, 5⟩ 7 = some (r, post', m') ∧
      m'.PostLock.locked = false ∧
      m'.PostLock.history = [] ++ [MutexOp.lock, MutexOp.unlock] :=
  AddPost_releases_lock { Client := { faults := [none, none, some 4] } } _ 7 (by decide)

/-- C10 as amended: the index that `NewMongoDBManager` declares on the post collection
at startup is a unique index whose only key is the field `uuid` (ascending); it
declares no other index, so none on the field `id`. -/
theorem NewMongoDBManager_index (db : Store) (m : MongoDBManager)
    (h : NewMongoDBManager db = Except.ok m) :
    ({ Keys := [("uuid", Bson.int 1)], Unique := true } : IndexModel) ∈ m.Client.post_indexes ∧
    ∀ ix ∈ m.Client.post_indexes,
      ix ∈ db.post_indexes ∨ (ix.Keys = [("uuid", Bson.int 1)] ∧ ix.Unique = true) := by
  unfold NewMongoDBManager at h
  simp only at h
  split at h
  · exact absurd h (by simp)
  · split at h
    · exact absurd h (by simp)
    · split at h
      · exact absurd h (by simp)
      · rename_i m1 hcm
        have hix : m1.Client.post_indexes = db.post_indexes := by
          have := CheckMetadata_post_indexes
            { Client := db.next.2.next.2, PostLock := {} }
          rw [hcm] at this
          rw [this]
          exact (Store.next_post_indexes _).trans (Store.next_post_indexes db)
        split at h
        · exact absurd h (by simp)
        · rename_i indexes hco
          obtain rfl := Except.ok.inj h
          simp only [CreateOne] at hco
          split at hco
          · exact absurd hco (by simp)
          · have hidx := Except.ok.inj hco
            rw [Store.next_post_indexes, hix] at hidx
            show _ ∈ indexes ∧ ∀ ix ∈ indexes, _
            rw [← hidx]
            split
            · rename_i hmem
              exact ⟨hmem, fun ix hi => Or.inl hi⟩
            · refine ⟨by simp, fun ix hi => ?_⟩
              rcases List.mem_append.1 hi with hi | hi
              · exact Or.inl hi
              · rw [List.mem_singleton.1 hi]
                exact Or.inr ⟨rfl, rfl⟩

/-- Instance of the amended C10: startup on the empty database. -/
theorem NewMongoDBManager_index_witness :
    ∃ m, NewMongoDBManager {} = Except.ok m ∧
      ({ Keys := [("uuid", Bson.int 1)], Unique := true } : IndexModel) ∈
        m.Client.post_indexes ∧
      ∀ ix ∈ m.Client.post_indexes,
        ix ∈ ({} : Store).post_indexes ∨ (ix.Keys = [("uuid", Bson.int 1)] ∧ ix.Unique = true) :=
  ⟨_, rfl, NewMongoDBManager_index {} _ rfl⟩

/-- C10 fails as stated: after startup on the empty database the post collection has
one index, unique on the field `uuid`, and no index has the field `id` among its keys,
while `GetPost` finds a post by its `id` field. -/
theorem startup_index_misses_id :
    (∃ m, NewMongoDBManager {} = Except.ok m ∧
      m.Client.post_indexes = [{ Keys := [("uuid", Bson.int 1)], Unique := true }] ∧
      ∀ ix ∈ m.Client.post_indexes, ∀ kv ∈ ix.Keys, kv.1 ≠ "id") ∧
    (GetPost { Client := { post := [⟨7, 100, PostStatus.PENDING_APPROVAL, 5⟩] } } 7).1 =
      (some ⟨7, 100, PostStatus.PENDING_APPROVAL, 5⟩, none) :=
  ⟨⟨_, rfl, rfl, by decide⟩, by decide⟩

end Campux
